import Mathlib

/-!
Verification development for the SwarmTorch core subsystem.

The Rust sources are shallowly embedded as executable Lean definitions:

* Rust strings (`str` / `String`) are modelled as byte lists (`Str := List Nat`);
  the byte-oriented operations used by the code (`len`, `find`, `rsplit_once`,
  `trim`, ASCII lowercasing) act on these lists.  ASCII string literals are
  injected with `strBytes`, which maps each character to its code point (equal
  to its UTF-8 byte for ASCII).
* Machine integers (`u32`/`u64`/`usize`) are modelled as `Nat` with explicit
  saturating operations where the code uses them (`u64::saturating_add`,
  `u64::saturating_sub`).
* `BTreeMap`/`BTreeSet` are modelled as association lists / duplicate-free
  lists with first-match lookup and in-place replacing insertion.
* The external crates `sha2` and `postcard` (cryptographic hashing and the
  canonical binary encoding) are modelled by an abstract `HashModel` whose
  fields stand for `sha256 ∘ postcard` applied to each canonical struct; the
  theorems below hold for every instantiation.  Likewise the external
  `ed25519-dalek` verification is an abstract parameter of the envelope
  verifier.
* Fallible Rust functions returning `Result`/`io::Result` are modelled with
  `Except`/`Option` error components; functions mutating `&mut self` are
  modelled by explicit state passing.
-/

set_option linter.unusedVariables false

namespace SwarmTorch

/-! ## Byte strings -/

/-- Rust `str`/`String` contents as a list of bytes. -/
abbrev Str := List Nat

/-- Inject an ASCII string literal as a byte list. -/
def strBytes (s : String) : Str := s.data.map Char.toNat

/-- Rust `char::is_whitespace` restricted to the ASCII bytes that occur in
byte-modelled strings (HT, LF, VT, FF, CR, SP). -/
def isWsByte (b : Nat) : Bool :=
  b == 0x09 || b == 0x0A || b == 0x0B || b == 0x0C || b == 0x0D || b == 0x20

/-- `str::trim_start`. -/
def trimLeft (s : Str) : Str := s.dropWhile isWsByte

/-- `str::trim_end`. -/
def trimRight (s : Str) : Str := (trimLeft s.reverse).reverse

/-- `str::trim`. -/
def strTrim (s : Str) : Str := trimRight (trimLeft s)

/-- `u8::to_ascii_lowercase`. -/
def asciiLowerByte (b : Nat) : Nat :=
  if 0x41 ≤ b ∧ b ≤ 0x5A then b + 0x20 else b

/-- First index at which `pat` occurs in `h` (Rust `str::find(&str)`). -/
def strFind (pat : Str) : Str → Option Nat
  | [] => if pat.isEmpty then some 0 else none
  | b :: t =>
    if pat.isPrefixOf (b :: t) then some 0
    else (strFind pat t).map (· + 1)

/-- First index of byte `b` (Rust `str::find(char)` for ASCII `char`). -/
def findByte (b : Nat) : Str → Option Nat
  | [] => none
  | x :: t => if x = b then some 0 else (findByte b t).map (· + 1)

/-- Index of the last occurrence of byte `b` (the split point used by
Rust `str::rsplit_once(char)`). -/
def lastIdxOf (b : Nat) : Str → Option Nat
  | [] => none
  | x :: t =>
    match lastIdxOf b t with
    | some j => some (j + 1)
    | none => if x == b then some 0 else none

/-- Lowercase-hex rendering of a byte slice (`hex_lower`). -/
def hexDigitChar (n : Nat) : Nat :=
  if n < 10 then 0x30 + n else 0x61 + (n - 10)

/-- `hex_lower(bytes)` as used throughout the repository. -/
def hexLower (bytes : Str) : Str :=
  bytes.flatMap (fun b => [hexDigitChar (b / 16), hexDigitChar (b % 16)])

/-! ## Association-list maps (model of `BTreeMap` / `LruCache` contents) -/

/-- First-match lookup. -/
def mapLookup {K V : Type} [DecidableEq K] : List (K × V) → K → Option V
  | [], _ => none
  | (k0, v0) :: t, k => if k0 = k then some v0 else mapLookup t k

/-- Replace-in-place (or append) insertion, the map semantics of
`BTreeMap::insert`. -/
def mapInsert {K V : Type} [DecidableEq K] : List (K × V) → K → V → List (K × V)
  | [], k, v => [(k, v)]
  | (k0, v0) :: t, k, v =>
    if k0 = k then (k, v) :: t else (k0, v0) :: mapInsert t k v

/-! ## Replay protection (`swarm-torch-core/src/replay.rs`) -/

/-- 32-byte peer identifier (`PeerId`), modelled as its byte list. -/
abbrev PeerId := Str

/-- `u64::MAX`. -/
def U64MAX : Nat := 2 ^ 64 - 1

/-- `u64::saturating_add`. -/
def satAdd (a b : Nat) : Nat := min (a + b) U64MAX

/-- `SEQUENCE_TOLERANCE_WINDOW`. -/
def SEQUENCE_TOLERANCE_WINDOW : Nat := 16

/-- `DEFAULT_CACHE_CAPACITY`. -/
def DEFAULT_CACHE_CAPACITY : Nat := 1000

/-- `DEFAULT_MAX_CLOCK_SKEW_SECS`. -/
def DEFAULT_MAX_CLOCK_SKEW_SECS : Nat := 60

/-- `ReplayError`. -/
inductive ReplayError where
  | expired (ts now window : Nat)
  | replay (peer : PeerId) (seq : Nat)
  | tooOld (peer : PeerId) (seq last_seen : Nat)
deriving DecidableEq, Repr

/-- `ReplayConfigError`. -/
inductive ReplayConfigError where
  | zeroCapacity
deriving DecidableEq, Repr

/-- `PeerReplayState`: `recent_sequences` is a `BTreeSet<u64>` modelled as a
duplicate-free list (membership is all the code observes besides pruning). -/
structure PeerReplayState where
  last_sequence : Nat
  recent_sequences : List Nat
deriving DecidableEq, Repr

/-- `BTreeSet::insert` on the duplicate-free list model. -/
def setInsert (a : Nat) (l : List Nat) : List Nat :=
  if a ∈ l then l else a :: l

/-- `PeerReplayState::new`. -/
def PeerReplayState.new (initial_seq : Nat) : PeerReplayState :=
  { last_sequence := initial_seq, recent_sequences := [initial_seq] }

/-- `PeerReplayState::validate_and_update` (state returned unchanged on error;
the Rust code mutates `&mut self` only on the success path). -/
def PeerReplayState.validate_and_update (st : PeerReplayState) (seq : Nat)
    (peer : PeerId) : PeerReplayState × Option ReplayError :=
  if seq ∈ st.recent_sequences then
    (st, some (.replay peer seq))
  else if satAdd seq SEQUENCE_TOLERANCE_WINDOW < st.last_sequence then
    (st, some (.tooOld peer seq st.last_sequence))
  else
    let recent := setInsert seq st.recent_sequences
    let last := max st.last_sequence seq
    let threshold := last - SEQUENCE_TOLERANCE_WINDOW
    ({ last_sequence := last,
       recent_sequences := recent.filter (fun s => threshold < s) }, none)

/-- `ReplayProtection`: the `LruCache` is modelled as an association list in
most-recently-used-first order with duplicate-free keys. -/
structure ReplayProtection where
  capacity : Nat
  max_clock_skew_secs : Nat
  peer_state : List (PeerId × PeerReplayState)
deriving DecidableEq, Repr

/-- `ReplayProtection::new`. -/
def ReplayProtection.new : ReplayProtection :=
  { capacity := DEFAULT_CACHE_CAPACITY,
    max_clock_skew_secs := DEFAULT_MAX_CLOCK_SKEW_SECS,
    peer_state := [] }

/-- `ReplayProtection::try_with_config`. -/
def ReplayProtection.try_with_config (capacity max_clock_skew_secs : Nat) :
    Except ReplayConfigError ReplayProtection :=
  if capacity = 0 then .error .zeroCapacity
  else .ok { capacity, max_clock_skew_secs, peer_state := [] }

/-- `u32::abs_diff`. -/
def absDiff (a b : Nat) : Nat := if b ≤ a then a - b else b - a

/-- `ReplayProtection::is_timestamp_valid`. -/
def ReplayProtection.is_timestamp_valid (rp : ReplayProtection) (ts now : Nat) : Bool :=
  absDiff now ts ≤ rp.max_clock_skew_secs

/-- `ReplayProtection::check_timestamp_only` (pure; never touches `peer_state`). -/
def ReplayProtection.check_timestamp_only (rp : ReplayProtection) (ts now : Nat) :
    Option ReplayError :=
  if rp.is_timestamp_valid ts now then none
  else some (.expired ts now rp.max_clock_skew_secs)

/-- `ReplayProtection::validate_sequence`.  `LruCache::get_mut` promotes the
entry to most-recently-used; `LruCache::put` inserts at the front and evicts
the least-recently-used entry when the capacity would be exceeded. -/
def ReplayProtection.validate_sequence (rp : ReplayProtection) (peer : PeerId)
    (seq : Nat) : ReplayProtection × Option ReplayError :=
  match mapLookup rp.peer_state peer with
  | some st =>
    let r := st.validate_and_update seq peer
    ({ rp with
       peer_state := (peer, r.1) :: rp.peer_state.filter (fun e => ¬ e.1 = peer) },
     r.2)
  | none =>
    let entries := (peer, PeerReplayState.new seq) :: rp.peer_state
    ({ rp with
       peer_state := if rp.capacity < entries.length then entries.dropLast else entries },
     none)

/-- `ReplayProtection::validate` (timestamp, then sequence). -/
def ReplayProtection.validate (rp : ReplayProtection) (peer : PeerId)
    (sequence timestamp current_time : Nat) : ReplayProtection × Option ReplayError :=
  match rp.check_timestamp_only timestamp current_time with
  | some e => (rp, some e)
  | none => rp.validate_sequence peer sequence

/-- `ReplayProtection::cache_size`. -/
def ReplayProtection.cache_size (rp : ReplayProtection) : Nat :=
  rp.peer_state.length

/-! ## Message envelope (`swarm-torch-net/src/protocol.rs`,
`swarm-torch-core/src/crypto.rs`) -/

/-- `MessageType` with its `u8` discriminants. -/
inductive MessageType where
  | gradientUpdate | modelCheckpoint | consensusVote | heartbeat
  | peerDiscovery | topologyChange | aggregationResult
  | roundStart | roundComplete | error
deriving DecidableEq, Repr

/-- `MessageType as u8`. -/
def MessageType.toByte : MessageType → Nat
  | .gradientUpdate => 0x01
  | .modelCheckpoint => 0x02
  | .consensusVote => 0x03
  | .heartbeat => 0x04
  | .peerDiscovery => 0x05
  | .topologyChange => 0x06
  | .aggregationResult => 0x07
  | .roundStart => 0x08
  | .roundComplete => 0x09
  | .error => 0xFF

/-- `crypto::VerifyError`. -/
inductive CryptoVerifyError where
  | invalidSignatureEncoding
  | invalidPublicKey
  | verificationFailed
deriving DecidableEq, Repr

/-- `protocol::VerifyError`. -/
inductive VerifyError where
  | crypto (e : CryptoVerifyError)
  | replay (e : ReplayError)
  | missingSignature
  | invalidSignatureLength (expected found : Nat)
  | unsupportedVersion (major minor : Nat)
deriving DecidableEq, Repr

/-- `MessageEnvelope` (the `sender` field carries the raw 32-byte Ed25519
public key bytes). -/
structure MessageEnvelope where
  version : Nat × Nat
  message_type : MessageType
  sender : Str
  sequence : Nat
  timestamp : Nat
  payload : Str
  signature : Option Str
deriving DecidableEq, Repr

/-- `MessageEnvelope::SUPPORTED_VERSIONS` (`CURRENT_VERSION = (0, 1)`). -/
def SUPPORTED_VERSIONS : List (Nat × Nat) := [(0, 1)]

/-- `MessageEnvelope::is_version_supported`. -/
def MessageEnvelope.is_version_supported (env : MessageEnvelope) : Bool :=
  SUPPORTED_VERSIONS.contains env.version

/-- Abstract model of `MessageAuth::verify` (external `ed25519-dalek` strict
verification over the reconstructed domain-separated preimage).  Arguments:
public key bytes, version, `message_type as u8`, sequence, timestamp, payload,
64-byte signature.  `none` means the signature verified. -/
abbrev CryptoVerifyFn :=
  Str → (Nat × Nat) → Nat → Nat → Nat → Str → Str → Option CryptoVerifyError

/-- `MessageEnvelope::verify_authenticated`, parameterized by the external
Ed25519 verifier.  Returns the (possibly updated) replay guard and the error,
threading state exactly as the Rust `&mut ReplayProtection` does. -/
def MessageEnvelope.verify_authenticated (cryptoVerify : CryptoVerifyFn)
    (env : MessageEnvelope) (replay_guard : ReplayProtection)
    (current_time : Nat) : ReplayProtection × Option VerifyError :=
  -- 0. version check (before any state mutation)
  if ¬ env.is_version_supported then
    (replay_guard, some (.unsupportedVersion env.version.1 env.version.2))
  else
    -- 1. cheap timestamp expiry check (no state mutation)
    match replay_guard.check_timestamp_only env.timestamp current_time with
    | some e => (replay_guard, some (.replay e))
    | none =>
      -- 2. signature presence, length, and Ed25519 verification
      match env.signature with
      | none => (replay_guard, some .missingSignature)
      | some sig_bytes =>
        if ¬ sig_bytes.length = 64 then
          (replay_guard, some (.invalidSignatureLength 64 sig_bytes.length))
        else
          match cryptoVerify env.sender env.version env.message_type.toByte
              env.sequence env.timestamp env.payload sig_bytes with
          | some ce => (replay_guard, some (.crypto ce))
          | none =>
            -- 3. stateful replay check (PeerId::new(self.sender))
            let r := replay_guard.validate_sequence env.sender env.sequence
            match r.2 with
            | some e => (r.1, some (.replay e))
            | none => (r.1, none)

/-! ## Canonical IDs (`swarm-torch-core/src/observe.rs`) -/

/-- `ParseIdError`. -/
inductive ParseIdError where
  | invalidLength
  | invalidHex
  | allZeroInvalid
deriving DecidableEq, Repr

/-- `decode_hex_nibble`. -/
def decodeHexNibble (b : Nat) : Option Nat :=
  if 0x30 ≤ b ∧ b ≤ 0x39 then some (b - 0x30)
  else if 0x61 ≤ b ∧ b ≤ 0x66 then some (b - 0x61 + 10)
  else if 0x41 ≤ b ∧ b ≤ 0x46 then some (b - 0x41 + 10)
  else none

/-- The nibble-pair decoding loop of `parse_hex_exact` (`(hi << 4) | lo`). -/
def decodeHexPairs : Str → Option Str
  | [] => some []
  | [_] => none
  | hi :: lo :: t =>
    match decodeHexNibble hi, decodeHexNibble lo with
    | some h, some l =>
      match decodeHexPairs t with
      | some rest => some ((h * 16 + l) :: rest)
      | none => none
    | _, _ => none

/-- `parse_hex_exact::<N>` (the length check counts bytes, as `str::len` does). -/
def parseHexExact (n : Nat) (s : Str) : Except ParseIdError Str :=
  if s.length = n * 2 then
    match decodeHexPairs s with
    | some bytes => .ok bytes
    | none => .error .invalidHex
  else .error .invalidLength

/-- `is_all_zero`. -/
def isAllZero (bytes : Str) : Bool := bytes.all (· == 0)

/-- `TraceId` (16 bytes). -/
structure TraceId where
  bytes : Str
deriving DecidableEq, Repr

/-- `TraceId::parse_hex`. -/
def TraceId.parse_hex (s : Str) : Except ParseIdError TraceId :=
  match parseHexExact 16 s with
  | .error e => .error e
  | .ok bytes =>
    if isAllZero bytes then .error .allZeroInvalid
    else .ok ⟨bytes⟩

/-! ## DataOps fingerprints (`swarm-torch-core/src/dataops.rs`) -/

/-- `MAX_SOURCE_URI_LEN`. -/
def MAX_SOURCE_URI_LEN : Nat := 2048

/-- `MAX_ETAG_OR_VERSION_LEN`. -/
def MAX_ETAG_OR_VERSION_LEN : Nat := 512

/-- `TrustClass`. -/
inductive TrustClass where
  | trusted
  | untrusted
deriving DecidableEq, Repr

/-- `AuthModeMarker`. -/
inductive AuthModeMarker where
  | nothing
  | bearerToken
  | basic
  | mtls
  | custom (tag : Str)
deriving DecidableEq, Repr

/-- `SourceDescriptorV0`. -/
structure SourceDescriptorV0 where
  uri : Str
  content_type : Str
  auth_mode : AuthModeMarker
  etag_or_version : Option Str
deriving DecidableEq, Repr

/-- `SchemaDescriptorV0`. -/
structure SchemaDescriptorV0 where
  format : Str
  canonical : Str
deriving DecidableEq, Repr

/-- `SourceDescriptorError`. -/
inductive SourceDescriptorError where
  | uriTooLong (len max : Nat)
  | etagOrVersionTooLong (len max : Nat)
deriving DecidableEq, Repr

/-- `normalize_lower` (trim then ASCII-lowercase). -/
def normalizeLower (s : Str) : Str := (strTrim s).map asciiLowerByte

/-- `normalize_trim`. -/
def normalizeTrim (s : Str) : Str := strTrim s

/-- The delimiter scan of `redact_uri_userinfo`: length of the authority part
of `after_scheme` (everything up to the first `/`, `?` or `#`). -/
def authorityCut (after_scheme : Str) : Nat :=
  [0x2F, 0x3F, 0x23].foldl
    (fun acc d =>
      match findByte d after_scheme with
      | some idx => min acc idx
      | none => acc)
    after_scheme.length

/-- `redact_uri_userinfo`. -/
def redactUriUserinfo (uri : Str) : Str :=
  match strFind (strBytes "://") uri with
  | none => uri
  | some scheme_sep =>
    let authority_start := scheme_sep + 3
    let after_scheme := uri.drop authority_start
    let authority_end := authorityCut after_scheme
    let authority := after_scheme.take authority_end
    match lastIdxOf 0x40 authority with
    | none => uri
    | some j =>
      uri.take authority_start ++ strBytes "<redacted>@" ++
        authority.drop (j + 1) ++ after_scheme.drop authority_end

/-- `normalize_and_redact_source_descriptor`. -/
def normalizeAndRedactSourceDescriptor (source : SourceDescriptorV0) :
    SourceDescriptorV0 :=
  { uri := redactUriUserinfo (normalizeTrim source.uri)
    content_type := normalizeLower source.content_type
    auth_mode := source.auth_mode
    etag_or_version := source.etag_or_version.map normalizeTrim }

/-- `sanitize_source_descriptor_v0`. -/
def sanitizeSourceDescriptorV0 (source : SourceDescriptorV0) :
    Except SourceDescriptorError SourceDescriptorV0 :=
  let sanitized := normalizeAndRedactSourceDescriptor source
  if MAX_SOURCE_URI_LEN < sanitized.uri.length then
    .error (.uriTooLong sanitized.uri.length MAX_SOURCE_URI_LEN)
  else
    match sanitized.etag_or_version with
    | some e =>
      if MAX_ETAG_OR_VERSION_LEN < e.length then
        .error (.etagOrVersionTooLong e.length MAX_ETAG_OR_VERSION_LEN)
      else .ok sanitized
    | none => .ok sanitized

/-- `auth_mode_marker_str`. -/
def authModeMarkerStr : AuthModeMarker → Str
  | .nothing => strBytes "none"
  | .bearerToken => strBytes "bearer_token"
  | .basic => strBytes "basic"
  | .mtls => strBytes "mtls"
  | .custom v => strBytes "custom:" ++ v

/-- `SourceFingerprintCanonicalV0`. -/
structure SourceFingerprintCanonicalV0 where
  uri : Str
  content_type : Str
  auth_mode : Str
  etag_or_version : Option Str
deriving DecidableEq, Repr

/-- `SchemaHashCanonicalV0`. -/
structure SchemaHashCanonicalV0 where
  format : Str
  canonical : Str
deriving DecidableEq, Repr

/-- A 32-byte SHA-256 digest. -/
abbrev Digest := Str

/-! Graph-side data model (`swarm-torch-core/src/run_graph.rs`), needed by the
recipe hash and the DataOps session. -/

/-- `OpKind`. -/
inductive OpKind where
  | data | train | comms | governance | system
deriving DecidableEq, Repr

/-- `ExecutionTrust`. -/
inductive ExecutionTrust where
  | core | sandboxedExtension | unsafeExtension
deriving DecidableEq, Repr

/-- `CanonValue` (the `f64` payload is carried as its IEEE-754 bit pattern:
it is only ever fed to the abstract canonical encoder). -/
inductive CanonValue where
  | null
  | bool (b : Bool)
  | i64 (v : Int)
  | u64 (v : Nat)
  | f64 (bits : Nat)
  | str (s : Str)
  | array (vs : List CanonValue)
  | object (entries : List (Str × CanonValue))
deriving Repr

/-- `CanonParams` (`BTreeMap<String, CanonValue>` as an association list). -/
abbrev CanonParams := List (Str × CanonValue)

/-- `AssetRefV1`. -/
structure AssetRefV1 where
  asset_key : Str
  fingerprint : Option Str
deriving DecidableEq, Repr

/-- 16-byte `NodeId` (= `TraceId` bytes). -/
abbrev NodeId := Str

/-- `NodeV1`. -/
structure NodeV1 where
  node_key : Str
  node_id : Option NodeId
  op_kind : OpKind
  op_type : Str
  inputs : List AssetRefV1
  outputs : List AssetRefV1
  params : CanonParams
  code_ref : Option Str
  unsafe_surface : Bool
  execution_trust : ExecutionTrust
  node_def_hash : Option Str
deriving Repr

/-- `NodeDefCanonicalV1` (runtime-only fields excluded by design). -/
structure NodeDefCanonicalV1 where
  schema_version : Nat
  op_kind : OpKind
  op_type : Str
  code_ref : Str
  inputs : List AssetRefV1
  outputs : List AssetRefV1
  params : CanonParams
deriving Repr

/-- `RecipeHashCanonicalV0`. -/
structure RecipeHashCanonicalV0 where
  node_def_hash : Digest
  upstream_fingerprints : List Digest
deriving DecidableEq, Repr

/-- `DatasetFingerprintCanonicalV0`. -/
structure DatasetFingerprintCanonicalV0 where
  source_fingerprint : Digest
  schema_hash : Digest
  recipe_hash : Digest
deriving DecidableEq, Repr

/-- Abstract model of `sha256_postcard` (external `sha2` + `postcard` crates),
one field per canonical input type, plus `node_id_from_key`
(`sha256(node_key)[0..16]`).  Every theorem below holds for every
instantiation of this structure. -/
structure HashModel where
  sourcePostcard : SourceFingerprintCanonicalV0 → Digest
  schemaPostcard : SchemaHashCanonicalV0 → Digest
  recipePostcard : RecipeHashCanonicalV0 → Digest
  datasetPostcard : DatasetFingerprintCanonicalV0 → Digest
  nodeDefPostcard : NodeDefCanonicalV1 → Digest
  stringPostcard : Str → Digest
  nodeIdFromKey : Str → NodeId

/-- The canonical struct hashed by `source_fingerprint_v0`. -/
def sourceFingerprintCanon (source : SourceDescriptorV0) :
    SourceFingerprintCanonicalV0 :=
  let s := normalizeAndRedactSourceDescriptor source
  { uri := s.uri
    content_type := normalizeLower s.content_type
    auth_mode := authModeMarkerStr s.auth_mode
    etag_or_version := s.etag_or_version }

/-- `source_fingerprint_v0`. -/
def sourceFingerprintV0 (H : HashModel) (source : SourceDescriptorV0) : Digest :=
  H.sourcePostcard (sourceFingerprintCanon source)

/-- `schema_hash_v0`. -/
def schemaHashV0 (H : HashModel) (schema : SchemaDescriptorV0) : Digest :=
  H.schemaPostcard
    { format := normalizeLower schema.format
      canonical := normalizeTrim schema.canonical }

/-- `node_def_hash_v1` (`run_graph.rs`). -/
def nodeDefHashV1 (H : HashModel) (node : NodeV1) : Digest :=
  H.nodeDefPostcard
    { schema_version := 1
      op_kind := node.op_kind
      op_type := node.op_type
      code_ref := node.code_ref.getD []
      inputs := node.inputs
      outputs := node.outputs
      params := node.params }

/-- `recipe_hash_v0`. -/
def recipeHashV0 (H : HashModel) (node : NodeV1)
    (upstream_fingerprints : List Digest) : Digest :=
  H.recipePostcard
    { node_def_hash := nodeDefHashV1 H node, upstream_fingerprints }

/-- `dataset_fingerprint_v0`. -/
def datasetFingerprintV0 (H : HashModel)
    (source_fingerprint schema_hash recipe_hash : Digest) : Digest :=
  H.datasetPostcard { source_fingerprint, schema_hash, recipe_hash }

/-- `no_schema_hash_v0` (`sha256(postcard("no_schema_v0"))`). -/
def noSchemaHashV0 (H : HashModel) : Digest :=
  H.stringPostcard (strBytes "no_schema_v0")

/-- `derived_source_fingerprint_v0`
(`sha256(postcard("derived_v0:{asset_key}"))`). -/
def derivedSourceFingerprintV0 (H : HashModel) (asset_key : Str) : Digest :=
  H.stringPostcard (strBytes "derived_v0:" ++ asset_key)

/-! ## DataOps session (`swarm-torch/src/artifacts.rs`) -/

/-- `DatasetEntryV1`. -/
structure DatasetEntryV1 where
  asset_key : Str
  fingerprint_v0 : Str
  source_fingerprint_v0 : Str
  schema_hash_v0 : Str
  recipe_hash_v0 : Str
  trust : TrustClass
  source : Option SourceDescriptorV0
  schema : Option SchemaDescriptorV0
  license_flags : List Str
  pii_tags : List Str
deriving DecidableEq, Repr

/-- `LineageEdgeV1`. -/
structure LineageEdgeV1 where
  input_fingerprint_v0 : Str
  output_fingerprint_v0 : Str
  node_id : NodeId
  op_kind : OpKind
deriving DecidableEq, Repr

/-- `MaterializationRecordV1`. -/
structure MaterializationRecordV1 where
  schema_version : Nat
  ts_unix_nanos : Nat
  asset_key : Str
  fingerprint_v0 : Str
  node_id : NodeId
  node_def_hash : Str
  rows : Option Nat
  bytes : Option Nat
  cache_hit : Option Bool
  duration_ms : Option Nat
  quality_flags : Option (List Str)
  unsafe_surface : Bool
deriving DecidableEq, Repr

/-- `OutputSpec`. -/
structure OutputSpec where
  asset_key : Str
  schema : Option SchemaDescriptorV0
  rows : Option Nat
  bytes : Option Nat
deriving DecidableEq, Repr

/-- `DataOpsSession` state: the registry and lineage `BTreeMap`s plus the
append-only `datasets/materializations.ndjson` stream behind the sink.
`flush_snapshots` persists `registry`/`lineage` verbatim, so the on-disk
snapshots equal these maps' values. -/
structure DataOpsSession where
  registry : List (Str × DatasetEntryV1)
  lineage : List ((Str × Str × Str) × LineageEdgeV1)
  mats : List MaterializationRecordV1
deriving DecidableEq, Repr

/-- A fresh session over an empty bundle (`DataOpsSession::new`). -/
def DataOpsSession.empty : DataOpsSession :=
  { registry := [], lineage := [], mats := [] }

/-- The dataset list written to `datasets/registry.json` by `flush_snapshots`. -/
def DataOpsSession.flushedRegistry (s : DataOpsSession) : List DatasetEntryV1 :=
  s.registry.map Prod.snd

/-- `DataOpsSession::register_source`.  The Rust function is fallible only
through sink I/O, which the model treats as always succeeding; it performs no
validation of its own. -/
def DataOpsSession.register_source (H : HashModel) (s : DataOpsSession)
    (asset_key : Str) (trust : TrustClass) (source : SourceDescriptorV0)
    (schema : Option SchemaDescriptorV0) (ingest_node : NodeV1) :
    DataOpsSession :=
  let source_fp := sourceFingerprintV0 H source
  let schema_fp := (schema.map (schemaHashV0 H)).getD (noSchemaHashV0 H)
  let recipe := recipeHashV0 H ingest_node []
  let dataset_fp := datasetFingerprintV0 H source_fp schema_fp recipe
  let entry : DatasetEntryV1 :=
    { asset_key := asset_key
      fingerprint_v0 := hexLower dataset_fp
      source_fingerprint_v0 := hexLower source_fp
      schema_hash_v0 := hexLower schema_fp
      recipe_hash_v0 := hexLower recipe
      trust := trust
      source := some source
      schema := schema
      license_flags := []
      pii_tags := [] }
  { s with registry := mapInsert s.registry asset_key entry }

/-- `hex_digit` (accepts both lowercase and uppercase hex digits). -/
def hexDigit (c : Nat) : Option Nat :=
  if 0x30 ≤ c ∧ c ≤ 0x39 then some (c - 0x30)
  else if 0x61 ≤ c ∧ c ≤ 0x66 then some (c - 0x61 + 10)
  else if 0x41 ≤ c ∧ c ≤ 0x46 then some (c - 0x41 + 10)
  else none

/-- The chunk loop of `hex_to_bytes` (`(high << 4) | low`). -/
def hexPairsToBytes : Str → Option Str
  | [] => some []
  | [_] => none
  | hi :: lo :: t =>
    match hexDigit hi, hexDigit lo with
    | some h, some l =>
      match hexPairsToBytes t with
      | some rest => some ((h * 16 + l) :: rest)
      | none => none
    | _, _ => none

/-- `hex_to_bytes` (exactly 64 hex chars to 32 bytes). -/
def hexToBytes (hex : Str) : Option Str :=
  if hex.length = 64 then hexPairsToBytes hex else none

/-- Error cases of `materialize_node_outputs` (Rust reports them as
`io::Error`s with `InvalidInput`/`InvalidData` kinds). -/
inductive MatError where
  | duplicateOutput (asset_key : Str)
  | undeclaredOutput (asset_key : Str)
  | missingInput (asset_key : Str)
  | invalidFingerprint (asset_key fp : Str)
deriving DecidableEq, Repr

/-- Pre-validation step 1: the `HashSet` scan rejecting duplicate output
`asset_key`s (first duplicate encountered wins). -/
def firstDuplicateKey (seen : List Str) : List OutputSpec → Option Str
  | [] => none
  | o :: t =>
    if o.asset_key ∈ seen then some o.asset_key
    else firstDuplicateKey (o.asset_key :: seen) t

/-- Pre-validation step 2: every `OutputSpec` must be declared in
`node.outputs[*].asset_key`. -/
def firstUndeclaredKey (declared : List Str) : List OutputSpec → Option Str
  | [] => none
  | o :: t =>
    if o.asset_key ∈ declared then firstUndeclaredKey declared t
    else some o.asset_key

/-- Pre-validation step 3 (fail closed): look up every input, decode its
stored fingerprint, collect trust, and snapshot `(asset_key, fp_hex)` pairs
before any registry mutation. -/
def collectInputs (registry : List (Str × DatasetEntryV1)) :
    List AssetRefV1 →
    Except MatError (List Digest × Bool × List (Str × Str))
  | [] => .ok ([], false, [])
  | input :: t =>
    match mapLookup registry input.asset_key with
    | none => .error (.missingInput input.asset_key)
    | some entry =>
      match hexToBytes entry.fingerprint_v0 with
      | none => .error (.invalidFingerprint input.asset_key entry.fingerprint_v0)
      | some fp_bytes =>
        match collectInputs registry t with
        | .error e => .error e
        | .ok (fps, anyUntrusted, snaps) =>
          .ok (fp_bytes :: fps,
               (entry.trust = TrustClass.untrusted) || anyUntrusted,
               (input.asset_key, entry.fingerprint_v0) :: snaps)

/-- The per-output body of step 6 of `materialize_node_outputs`: compute the
output fingerprint, overwrite the registry entry, upsert one lineage edge per
input snapshot, and append the v1 materialization record. -/
def applyOutput (H : HashModel) (recipe : Digest) (output_trust : TrustClass)
    (node : NodeV1) (node_id : NodeId) (node_id_str node_hash : Str)
    (input_snapshots : List (Str × Str)) (ts_unix_nanos : Nat)
    (cache_hit : Bool) (duration_ms : Nat)
    (s : DataOpsSession) (output : OutputSpec) : DataOpsSession :=
  let schema_fp := (output.schema.map (schemaHashV0 H)).getD (noSchemaHashV0 H)
  let source_fp := derivedSourceFingerprintV0 H output.asset_key
  let dataset_fp := datasetFingerprintV0 H source_fp schema_fp recipe
  let fp_hex := hexLower dataset_fp
  let entry : DatasetEntryV1 :=
    { asset_key := output.asset_key
      fingerprint_v0 := fp_hex
      source_fingerprint_v0 := hexLower source_fp
      schema_hash_v0 := hexLower schema_fp
      recipe_hash_v0 := hexLower recipe
      trust := output_trust
      source := none
      schema := output.schema
      license_flags := []
      pii_tags := [] }
  let registry := mapInsert s.registry output.asset_key entry
  let lineage := input_snapshots.foldl
    (fun ln snap =>
      mapInsert ln (snap.2, fp_hex, node_id_str)
        { input_fingerprint_v0 := snap.2
          output_fingerprint_v0 := fp_hex
          node_id := node_id
          op_kind := node.op_kind })
    s.lineage
  let mat : MaterializationRecordV1 :=
    { schema_version := 1
      ts_unix_nanos := ts_unix_nanos
      asset_key := output.asset_key
      fingerprint_v0 := fp_hex
      node_id := node_id
      node_def_hash := node_hash
      rows := output.rows
      bytes := output.bytes
      cache_hit := some cache_hit
      duration_ms := some duration_ms
      quality_flags := none
      unsafe_surface := output_trust = TrustClass.untrusted }
  { registry := registry, lineage := lineage, mats := s.mats ++ [mat] }

/-- `DataOpsSession::materialize_node_outputs`.  On every error path the Rust
function returns before any mutation; the model returns the untouched session
together with the error. -/
def DataOpsSession.materialize_node_outputs (H : HashModel)
    (s : DataOpsSession) (node : NodeV1) (outputs : List OutputSpec)
    (ts_unix_nanos : Nat) (cache_hit : Bool) (duration_ms : Nat) :
    DataOpsSession × Option MatError :=
  match firstDuplicateKey [] outputs with
  | some k => (s, some (.duplicateOutput k))
  | none =>
    match firstUndeclaredKey (node.outputs.map (·.asset_key)) outputs with
    | some k => (s, some (.undeclaredOutput k))
    | none =>
      match collectInputs s.registry node.inputs with
      | .error e => (s, some e)
      | .ok (upstream_fps, any_untrusted_input, input_snapshots) =>
        let recipe := recipeHashV0 H node upstream_fps
        let output_trust :=
          if any_untrusted_input || ¬ node.execution_trust = ExecutionTrust.core
          then TrustClass.untrusted else TrustClass.trusted
        let node_id := node.node_id.getD (H.nodeIdFromKey node.node_key)
        let node_id_str := hexLower node_id
        let node_hash := hexLower (nodeDefHashV1 H node)
        (outputs.foldl
          (applyOutput H recipe output_trust node node_id node_id_str
            node_hash input_snapshots ts_unix_nanos cache_hit duration_ms)
          s, none)

/-! ## Manifest (`RunArtifactBundle::finalize_manifest` /
`validate_manifest`) -/

/-- One on-disk file of a bundle: its path components relative to the run
directory (the flattening of the `collect_files_recursive` walk) and its
byte content. -/
structure FsFile where
  path : List Str
  content : Str
deriving DecidableEq, Repr

/-- `Path::file_name` of a collected file. -/
def FsFile.baseName (f : FsFile) : Str := f.path.getLastD []

/-- `rel_path_string` (`/`-joined components). -/
def joinPath (components : List Str) : Str :=
  List.intercalate (strBytes "/") components

/-- `ManifestEntryV1`. -/
structure ManifestEntryV1 where
  path : Str
  sha256 : Str
  bytes : Nat
  required : Bool
deriving DecidableEq, Repr

/-- `ManifestV1`. -/
structure ManifestV1 where
  schema_version : Nat
  run_id : Str
  hash_algo : Str
  entries : List ManifestEntryV1
deriving DecidableEq, Repr

/-- `required_paths_v1`. -/
def requiredPathsV1 : List Str :=
  [strBytes "run.json", strBytes "graph.json", strBytes "spans.ndjson",
   strBytes "events.ndjson", strBytes "metrics.ndjson",
   strBytes "datasets/registry.json", strBytes "datasets/lineage.json",
   strBytes "datasets/materializations.ndjson"]

/-- `is_required_path_v1`. -/
def isRequiredPathV1 (p : Str) : Bool := requiredPathsV1.contains p

/-- Byte-lexicographic comparison implementing `String::cmp` for the
`entries.sort_by(|a, b| a.path.cmp(&b.path))` call. -/
def strLe : Str → Str → Bool
  | [], _ => true
  | _ :: _, [] => false
  | a :: as_, b :: bs => if a < b then true else if b < a then false else strLe as_ bs

/-- Insertion step of the sort used to model `slice::sort_by`. -/
def insertSorted {α : Type} (le : α → α → Bool) (a : α) : List α → List α
  | [] => [a]
  | b :: t => if le a b then a :: b :: t else b :: insertSorted le a t

/-- Executable sort modelling `entries.sort_by` (sortedness itself is not
claimed; only the entry set matters below). -/
def sortByB {α : Type} (le : α → α → Bool) (l : List α) : List α :=
  l.foldr (insertSorted le) []

/-- Errors of `finalize_manifest` / `validate_manifest` (surfaced as
`io::Error`s in Rust). -/
inductive ManifestError where
  | missingRequired (path : Str)
  | unsupportedSchemaVersion
  | runIdMismatch
  | unsupportedHashAlgo
  | missingFile (path : Str)
  | sizeMismatch (path : Str)
  | shaMismatch (path : Str)
deriving DecidableEq, Repr

/-- File-system lookup by joined relative path (`run_dir.join(&entry.path)`),
abstract SHA-256 of a file's bytes given as `sha`. -/
def fileLookup (files : List FsFile) (p : Str) : Option FsFile :=
  files.find? (fun f => joinPath f.path == p)

/-- The `collect_files_recursive` walk result: every regular file except
`*.tmp` ones. -/
def collectFiles (files : List FsFile) : List FsFile :=
  files.filter (fun f => ¬ (strBytes ".tmp").isSuffixOf f.baseName)

/-- `RunArtifactBundle::finalize_manifest`, over the file list `files` of the
bundle directory and an abstract streaming SHA-256 `sha`. -/
def finalizeManifest (sha : Str → Digest) (run_id : Str)
    (files : List FsFile) : Except ManifestError ManifestV1 :=
  match requiredPathsV1.find? (fun p => ¬ (files.any (fun f => joinPath f.path == p))) with
  | some p => .error (.missingRequired p)
  | none =>
    let walked := collectFiles files
    let kept := walked.filter (fun f => ¬ f.baseName = strBytes "manifest.json")
    let entries := kept.map (fun f =>
      { required := isRequiredPathV1 (joinPath f.path)
        path := joinPath f.path
        sha256 := hexLower (sha f.content)
        bytes := f.content.length : ManifestEntryV1 })
    .ok { schema_version := 1
          run_id := run_id
          hash_algo := strBytes "sha256"
          entries := sortByB (fun a b => strLe a.path b.path) entries }

/-- The per-entry loop of `validate_manifest` (early return on the first
mismatch). -/
def validateEntries (sha : Str → Digest) (files : List FsFile) :
    List ManifestEntryV1 → Option ManifestError
  | [] => none
  | e :: t =>
    match fileLookup files e.path with
    | none => some (.missingFile e.path)
    | some f =>
      if ¬ f.content.length = e.bytes then some (.sizeMismatch e.path)
      else if ¬ hexLower (sha f.content) = e.sha256 then some (.shaMismatch e.path)
      else validateEntries sha files t

/-- `RunArtifactBundle::validate_manifest` over a loaded manifest `m`. -/
def validateManifest (sha : Str → Digest) (run_id : Str)
    (files : List FsFile) (m : ManifestV1) : Option ManifestError :=
  if ¬ m.schema_version = 1 then some .unsupportedSchemaVersion
  else if ¬ m.run_id = run_id then some .runIdMismatch
  else if ¬ m.hash_algo = strBytes "sha256" then some .unsupportedHashAlgo
  else validateEntries sha files m.entries

/-! ## Supporting lemmas for the ID parser -/

theorem decodeHexNibble_eq_some_zero_iff (b : Nat) :
    decodeHexNibble b = some 0 ↔ b = 0x30 := by
  unfold decodeHexNibble
  split_ifs with h1 h2 h3 <;> simp <;> omega

theorem decodeHexPairs_isSome_iff : ∀ s : Str, s.length % 2 = 0 →
    ((decodeHexPairs s).isSome ↔ ∀ b ∈ s, (decodeHexNibble b).isSome)
  | [] => fun _ => by simp [decodeHexPairs]
  | [b] => fun h => by simp at h
  | hi :: lo :: t => fun h => by
    have ht : t.length % 2 = 0 := by
      simp only [List.length_cons] at h; omega
    have ih := decodeHexPairs_isSome_iff t ht
    rcases hdh : decodeHexNibble hi with _ | vh
    · simp only [decodeHexPairs, hdh, Option.isSome_none, Bool.false_eq_true,
        false_iff]
      intro hall
      have := hall hi (by simp)
      simp [hdh] at this
    · rcases hdl : decodeHexNibble lo with _ | vl
      · simp only [decodeHexPairs, hdh, hdl, Option.isSome_none,
          Bool.false_eq_true, false_iff]
        intro hall
        have := hall lo (by simp)
        simp [hdl] at this
      · rcases hr : decodeHexPairs t with _ | r
        · simp only [decodeHexPairs, hdh, hdl, hr, Option.isSome_none,
            Bool.false_eq_true, false_iff]
          intro hall
          have : (decodeHexPairs t).isSome :=
            ih.mpr (fun b hb => hall b (by simp [hb]))
          simp [hr] at this
        · simp only [decodeHexPairs, hdh, hdl, hr]
          refine ⟨fun _ b hb => ?_, fun _ => rfl⟩
          rcases hb with _ | ⟨_, hb⟩
          · simp [hdh]
          · rcases hb with _ | ⟨_, hb⟩
            · simp [hdl]
            · exact ih.mp (by simp [hr]) b hb

theorem decodeHexPairs_all_zero_iff : ∀ s bytes : Str,
    decodeHexPairs s = some bytes →
    (isAllZero bytes = true ↔ ∀ b ∈ s, b = 0x30)
  | [], bytes => fun h => by
    simp only [decodeHexPairs, Option.some.injEq] at h
    subst h
    simp [isAllZero]
  | [b], bytes => fun h => by simp [decodeHexPairs] at h
  | hi :: lo :: t, bytes => fun h => by
    rcases hdh : decodeHexNibble hi with _ | vh
    · simp [decodeHexPairs, hdh] at h
    · rcases hdl : decodeHexNibble lo with _ | vl
      · simp [decodeHexPairs, hdh, hdl] at h
      · rcases hr : decodeHexPairs t with _ | r
        · simp [decodeHexPairs, hdh, hdl, hr] at h
        · have ih := decodeHexPairs_all_zero_iff t r hr
          simp only [decodeHexPairs, hdh, hdl, hr, Option.some.injEq] at h
          subst h
          simp only [isAllZero, List.all_cons, Bool.and_eq_true, beq_iff_eq]
          rw [show (r.all (fun b => b == 0) = true ↔ ∀ b ∈ t, b = 0x30) from ih]
          constructor
          · rintro ⟨hz, hrest⟩ b hb
            have hvh : vh = 0 := by omega
            have hvl : vl = 0 := by omega
            have hhi : hi = 0x30 := by
              rw [← decodeHexNibble_eq_some_zero_iff, hdh, hvh]
            have hlo : lo = 0x30 := by
              rw [← decodeHexNibble_eq_some_zero_iff, hdl, hvl]
            rcases hb with _ | ⟨_, hb⟩
            · exact hhi
            · rcases hb with _ | ⟨_, hb⟩
              · exact hlo
              · exact hrest b hb
          · intro hall
            have h1 : hi = 0x30 := hall hi (by simp)
            have h2 : lo = 0x30 := hall lo (by simp)
            have hvh : vh = 0 := by
              have := (decodeHexNibble_eq_some_zero_iff hi).mpr h1
              rw [hdh] at this
              simpa using this
            have hvl : vl = 0 := by
              have := (decodeHexNibble_eq_some_zero_iff lo).mpr h2
              rw [hdl] at this
              simpa using this
            exact ⟨by omega, fun b hb => hall b (by simp [hb])⟩

/-- `Result::is_ok`. -/
def exceptIsOk {ε α : Type} : Except ε α → Bool
  | .ok _ => true
  | .error _ => false

instance exceptDecEq {ε α : Type} [DecidableEq ε] [DecidableEq α] :
    DecidableEq (Except ε α)
  | .ok a, .ok b =>
    if h : a = b then isTrue (by rw [h]) else isFalse (fun hc => h (Except.ok.inj hc))
  | .ok _, .error _ => isFalse (fun hc => Except.noConfusion hc)
  | .error _, .ok _ => isFalse (fun hc => Except.noConfusion hc)
  | .error e, .error f =>
    if h : e = f then isTrue (by rw [h]) else isFalse (fun hc => h (Except.error.inj hc))

theorem trace_id_parse_hex_of_len_ne (s : Str) (h : ¬ s.length = 32) :
    TraceId.parse_hex s = .error .invalidLength := by
  unfold TraceId.parse_hex parseHexExact
  simp [h]

theorem trace_id_parse_hex_of_bad_hex (s : Str) (hlen : s.length = 32)
    (h : decodeHexPairs s = none) :
    TraceId.parse_hex s = .error .invalidHex := by
  unfold TraceId.parse_hex parseHexExact
  simp [hlen, h]

theorem trace_id_parse_hex_of_zero (s bytes : Str) (hlen : s.length = 32)
    (hdp : decodeHexPairs s = some bytes) (hz : isAllZero bytes = true) :
    TraceId.parse_hex s = .error .allZeroInvalid := by
  unfold TraceId.parse_hex parseHexExact
  simp [hlen, hdp, hz]

theorem trace_id_parse_hex_of_ok (s bytes : Str) (hlen : s.length = 32)
    (hdp : decodeHexPairs s = some bytes) (hz : isAllZero bytes = false) :
    TraceId.parse_hex s = .ok ⟨bytes⟩ := by
  unfold TraceId.parse_hex parseHexExact
  simp [hlen, hdp, hz]

/-- C4 counterexample: `TraceId::parse_hex` accepts a 32-character uppercase
hex string, while the claim says an uppercase digit must be rejected
(`decode_hex_nibble` has a `b'A'..=b'F'` arm). -/
theorem C4_counterexample_uppercase_accepted :
    TraceId.parse_hex (strBytes "ABABABABABABABABABABABABABABABAB") =
      .ok ⟨List.replicate 16 0xAB⟩ := by rfl

/-- C4 (amended): `TraceId::parse_hex` fails exactly when the input's byte
length differs from 32, some byte is not an ASCII hex digit (either case), or
the input decodes to all-zero bytes (i.e. is all `'0'` characters); uppercase
hex digits are accepted. -/
theorem C4_trace_id_parse_hex_amended (s : Str) :
    exceptIsOk (TraceId.parse_hex s) = true ↔
      (s.length = 32 ∧ (∀ b ∈ s, (decodeHexNibble b).isSome) ∧
        ¬ (∀ b ∈ s, b = 0x30)) := by
  by_cases hlen : s.length = 32
  · have heven : s.length % 2 = 0 := by rw [hlen]
    rcases hdp : decodeHexPairs s with _ | bytes
    · rw [trace_id_parse_hex_of_bad_hex s hlen hdp]
      constructor
      · intro h
        simp [exceptIsOk] at h
      · rintro ⟨_, hhex, _⟩
        have : (decodeHexPairs s).isSome :=
          (decodeHexPairs_isSome_iff s heven).mpr hhex
        simp [hdp] at this
    · have hzero := decodeHexPairs_all_zero_iff s bytes hdp
      by_cases hz : isAllZero bytes = true
      · rw [trace_id_parse_hex_of_zero s bytes hlen hdp hz]
        constructor
        · intro h
          simp [exceptIsOk] at h
        · rintro ⟨_, _, hnz⟩
          exact absurd (hzero.mp hz) hnz
      · rw [trace_id_parse_hex_of_ok s bytes hlen hdp
          (by simpa using hz)]
        constructor
        · intro _
          refine ⟨hlen, ?_, fun hall => hz (hzero.mpr hall)⟩
          exact (decodeHexPairs_isSome_iff s heven).mp (by simp [hdp])
        · intro _
          rfl
  · rw [trace_id_parse_hex_of_len_ne s hlen]
    constructor
    · intro h
      simp [exceptIsOk] at h
    · rintro ⟨h32, _⟩
      exact absurd h32 hlen

/-! ## C1: `register_source` and descriptor sanitization -/

/-- A concrete instantiation of the abstract `sha256_postcard` model, used to
evaluate the session functions on concrete inputs. -/
def demoHashModel : HashModel :=
  { sourcePostcard := fun _ => List.replicate 32 0
    schemaPostcard := fun _ => List.replicate 32 0
    recipePostcard := fun _ => List.replicate 32 0
    datasetPostcard := fun _ => List.replicate 32 0
    nodeDefPostcard := fun _ => List.replicate 32 0
    stringPostcard := fun _ => List.replicate 32 0
    nodeIdFromKey := fun _ => List.replicate 16 0 }

/-- A minimal ingest node. -/
def demoIngestNode : NodeV1 :=
  { node_key := strBytes "ingest/raw"
    node_id := none
    op_kind := .data
    op_type := strBytes "ingest"
    inputs := []
    outputs := []
    params := []
    code_ref := none
    unsafe_surface := false
    execution_trust := .core
    node_def_hash := none }

/-- A source descriptor whose URI carries userinfo (credentials). -/
def demoSecretSource : SourceDescriptorV0 :=
  { uri := strBytes "s3://alice:secret@bucket/path/file.parquet"
    content_type := strBytes "application/parquet"
    auth_mode := .basic
    etag_or_version := none }

/-- A source descriptor whose URI exceeds `MAX_SOURCE_URI_LEN`. -/
def demoOversizeSource : SourceDescriptorV0 :=
  { uri := strBytes "s3://" ++ List.replicate 2100 0x61
    content_type := strBytes "text/csv"
    auth_mode := .nothing
    etag_or_version := none }

theorem mapLookup_mapInsert_self {K V : Type} [DecidableEq K] :
    ∀ (l : List (K × V)) (k : K) (v : V),
      mapLookup (mapInsert l k v) k = some v
  | [], k, v => by simp [mapInsert, mapLookup]
  | (k0, v0) :: t, k, v => by
    by_cases h : k0 = k
    · simp [mapInsert, h, mapLookup]
    · simp only [mapInsert, h, if_false, mapLookup, if_neg h]
      exact mapLookup_mapInsert_self t k v

/-- C1 (code bug): `DataOpsSession::register_source` never calls
`sanitize_source_descriptor_v0`.  For every source descriptor — including one
with userinfo in its URI and one whose URI exceeds `MAX_SOURCE_URI_LEN` — it
inserts a registry entry (flushed verbatim to `datasets/registry.json`) whose
`source` field is the original, un-redacted, un-checked descriptor, and it
never reports a user error.  Meanwhile redaction would change the concrete
secret-bearing URI, and the repository's own sanitizer output differs from
what is persisted. -/
theorem C1_register_source_persists_raw_descriptor :
    ((∀ (H : HashModel) (s : DataOpsSession) (key : Str) (trust : TrustClass)
        (source : SourceDescriptorV0) (schema : Option SchemaDescriptorV0)
        (node : NodeV1),
        ∃ e, mapLookup
            (DataOpsSession.register_source H s key trust source schema
              node).registry key = some e
          ∧ e.source = some source ∧ e.trust = trust)
    ∧ ¬ redactUriUserinfo demoSecretSource.uri = demoSecretSource.uri
    ∧ sanitizeSourceDescriptorV0 demoSecretSource =
        .ok (normalizeAndRedactSourceDescriptor demoSecretSource)
    ∧ ¬ (normalizeAndRedactSourceDescriptor demoSecretSource).uri =
        demoSecretSource.uri
    ∧ MAX_SOURCE_URI_LEN < demoOversizeSource.uri.length) := by
  refine ⟨?_, by decide, by decide, by decide, ?_⟩
  · intro H s key trust source schema node
    exact ⟨_, mapLookup_mapInsert_self s.registry key _, rfl, rfl⟩
  · simp only [demoOversizeSource, List.length_append, List.length_replicate,
      MAX_SOURCE_URI_LEN]
    norm_num [strBytes]

/-! ## C10: manifest self-exclusion at every directory depth -/

theorem mem_insertSorted {α : Type} (le : α → α → Bool) (x a : α) :
    ∀ l : List α, a ∈ insertSorted le x l ↔ a = x ∨ a ∈ l
  | [] => by simp [insertSorted]
  | b :: t => by
    by_cases h : le x b = true
    · simp [insertSorted, h]
    · have hred : insertSorted le x (b :: t) = b :: insertSorted le x t := by
        simp [insertSorted, h]
      rw [hred]
      simp only [List.mem_cons, mem_insertSorted le x a t]
      tauto

theorem mem_sortByB {α : Type} (le : α → α → Bool) (a : α) :
    ∀ l : List α, a ∈ sortByB le l ↔ a ∈ l
  | [] => by simp [sortByB]
  | b :: t => by
    simp only [sortByB, List.foldr_cons, List.mem_cons]
    rw [show List.foldr (insertSorted le) [] t = sortByB le t from rfl] at *
    rw [mem_insertSorted le b a (sortByB le t), mem_sortByB le a t]

theorem validateEntries_congr (sha : Str → Digest) (files g : List FsFile) :
    ∀ entries : List ManifestEntryV1,
      (∀ p ∈ entries.map (fun e => e.path), fileLookup files p = fileLookup g p) →
      validateEntries sha files entries = validateEntries sha g entries
  | [], _ => rfl
  | e :: t, h => by
    have he : fileLookup files e.path = fileLookup g e.path := h e.path (by simp)
    have ht := validateEntries_congr sha files g t
      (fun p hp => h p (by simp [hp]))
    simp only [validateEntries, ← he]
    rcases fileLookup files e.path with _ | f
    · rfl
    · by_cases hb : f.content.length = e.bytes
      · by_cases hs : hexLower (sha f.content) = e.sha256
        · simp [hb, hs, ht]
        · simp [hb, hs]
      · simp [hb]

/-- C10: `finalize_manifest` skips every file whose base name is
`manifest.json`, at any directory depth — every manifest entry comes from a
file with a different base name — and `validate_manifest` touches only files
located at the listed entry paths, so a file like `artifacts/manifest.json`
receives no size or digest check. -/
theorem C10_manifest_excludes_nested_manifest_json
    (sha : Str → Digest) (run_id : Str) (files : List FsFile)
    (m : ManifestV1) (hfin : finalizeManifest sha run_id files = .ok m) :
    (∀ e ∈ m.entries, ∃ f, f ∈ files ∧ e.path = joinPath f.path ∧
      ¬ f.baseName = strBytes "manifest.json")
    ∧ ∀ g : List FsFile,
        (∀ p ∈ m.entries.map (fun e => e.path),
          fileLookup files p = fileLookup g p) →
        validateManifest sha run_id files m = validateManifest sha run_id g m := by
  constructor
  · intro e he
    unfold finalizeManifest at hfin
    split at hfin
    · exact absurd hfin (by simp)
    · have hm := Except.ok.inj hfin
      rw [← hm] at he
      simp only [mem_sortByB, List.mem_map] at he
      rcases he with ⟨f, hf, rfl⟩
      simp only [List.mem_filter, collectFiles] at hf
      rcases hf with ⟨⟨hfiles, _⟩, hbase⟩
      refine ⟨f, hfiles, rfl, ?_⟩
      simpa using hbase
  · intro g hagree
    unfold validateManifest
    by_cases h1 : m.schema_version = 1
    · by_cases h2 : m.run_id = run_id
      · by_cases h3 : m.hash_algo = strBytes "sha256"
        · simp only [h1, h2, h3, not_true, if_false]
          exact validateEntries_congr sha files g m.entries hagree
        · simp [h1, h2, h3]
      · simp [h1, h2]
    · simp [h1]

/-- Bundle file list for the C10 witness: the eight required files, the root
manifest, and a nested `artifacts/manifest.json`. -/
def demoFiles : List FsFile :=
  [⟨[strBytes "run.json"], strBytes "r"⟩,
   ⟨[strBytes "graph.json"], strBytes "g"⟩,
   ⟨[strBytes "spans.ndjson"], []⟩,
   ⟨[strBytes "events.ndjson"], []⟩,
   ⟨[strBytes "metrics.ndjson"], []⟩,
   ⟨[strBytes "datasets", strBytes "registry.json"], strBytes "d"⟩,
   ⟨[strBytes "datasets", strBytes "lineage.json"], strBytes "l"⟩,
   ⟨[strBytes "datasets", strBytes "materializations.ndjson"], []⟩,
   ⟨[strBytes "manifest.json"], strBytes "m"⟩,
   ⟨[strBytes "artifacts", strBytes "manifest.json"], strBytes "nested"⟩]

/-- Abstract digest function for the C10 witness. -/
def demoSha : Str → Digest := fun _ => List.replicate 32 0

/-- The manifest produced for `demoFiles`. -/
def demoManifest : ManifestV1 :=
  match finalizeManifest demoSha (strBytes "run") demoFiles with
  | .ok m => m
  | .error _ => { schema_version := 0, run_id := [], hash_algo := [], entries := [] }

/-- C10 witness: the theorem applied to the concrete bundle above. -/
theorem C10_manifest_excludes_nested_manifest_json_witness :
    (∀ e ∈ demoManifest.entries, ∃ f, f ∈ demoFiles ∧
      e.path = joinPath f.path ∧ ¬ f.baseName = strBytes "manifest.json")
    ∧ ∀ g : List FsFile,
        (∀ p ∈ demoManifest.entries.map (fun e => e.path),
          fileLookup demoFiles p = fileLookup g p) →
        validateManifest demoSha (strBytes "run") demoFiles demoManifest =
          validateManifest demoSha (strBytes "run") g demoManifest :=
  C10_manifest_excludes_nested_manifest_json demoSha (strBytes "run")
    demoFiles demoManifest (by decide)

/-! ## C5, C6, C7: `materialize_node_outputs` -/

theorem mapLookup_mapInsert {K V : Type} [DecidableEq K] :
    ∀ (l : List (K × V)) (k0 : K) (v0 : V) (k : K),
      mapLookup (mapInsert l k0 v0) k = if k0 = k then some v0 else mapLookup l k
  | [], k0, v0, k => by simp [mapInsert, mapLookup]
  | (k1, v1) :: t, k0, v0, k => by
    by_cases h : k1 = k0
    · subst h
      by_cases hk : k1 = k <;> simp [mapInsert, mapLookup, hk]
    · by_cases hk : k1 = k
      · subst hk
        have hne : ¬ k0 = k1 := fun hc => h hc.symm
        simp [mapInsert, h, mapLookup, hne]
      · simp only [mapInsert, h, if_false, mapLookup, hk, if_neg hk]
        exact mapLookup_mapInsert t k0 v0 k

theorem mapLookup_foldl_mapInsert {K V A : Type} [DecidableEq K]
    (f : A → K) (g : A → V) :
    ∀ (xs : List A) (l : List (K × V)) (k : K) (v : V),
      mapLookup (xs.foldl (fun acc x => mapInsert acc (f x) (g x)) l) k = some v →
      mapLookup l k = some v ∨ ∃ x ∈ xs, v = g x
  | [], l, k, v => fun h => .inl h
  | x :: t, l, k, v => fun h => by
    rcases mapLookup_foldl_mapInsert f g t (mapInsert l (f x) (g x)) k v h with h1 | h1
    · rw [mapLookup_mapInsert] at h1
      by_cases hfx : f x = k
      · rw [if_pos hfx] at h1
        exact .inr ⟨x, by simp, (Option.some.inj h1).symm⟩
      · rw [if_neg hfx] at h1
        exact .inl h1
    · rcases h1 with ⟨y, hy, hv⟩
      exact .inr ⟨y, by simp [hy], hv⟩

theorem firstDuplicateKey_none_iff :
    ∀ (outputs : List OutputSpec) (seen : List Str),
      firstDuplicateKey seen outputs = none ↔
        ((outputs.map (fun o => o.asset_key)).Nodup ∧
          ∀ k ∈ outputs.map (fun o => o.asset_key), k ∉ seen)
  | [], seen => by simp [firstDuplicateKey]
  | o :: t, seen => by
    by_cases h : o.asset_key ∈ seen
    · simp only [firstDuplicateKey, if_pos h]
      simp only [List.map_cons, List.nodup_cons, List.mem_cons]
      constructor
      · intro hc
        exact absurd hc (by simp)
      · rintro ⟨_, hall⟩
        exact absurd h (hall o.asset_key (.inl rfl))
    · simp only [firstDuplicateKey, if_neg h]
      rw [firstDuplicateKey_none_iff t (o.asset_key :: seen)]
      simp only [List.map_cons, List.nodup_cons, List.mem_cons, not_or]
      constructor
      · rintro ⟨hnd, hall⟩
        refine ⟨⟨fun hmem => (hall _ hmem).1 rfl, hnd⟩, ?_⟩
        rintro k (rfl | hk)
        · exact h
        · exact (hall k hk).2
      · rintro ⟨⟨hno, hnd⟩, hall⟩
        refine ⟨hnd, fun k hk => ⟨?_, hall k (Or.inr hk)⟩⟩
        rintro rfl
        exact hno hk

theorem firstUndeclaredKey_none_iff (declared : List Str) :
    ∀ outputs : List OutputSpec,
      firstUndeclaredKey declared outputs = none ↔
        ∀ o ∈ outputs, o.asset_key ∈ declared
  | [] => by simp [firstUndeclaredKey]
  | o :: t => by
    by_cases h : o.asset_key ∈ declared
    · simp only [firstUndeclaredKey, if_pos h]
      rw [firstUndeclaredKey_none_iff declared t]
      constructor
      · intro hall o2 h2
        rcases List.mem_cons.mp h2 with rfl | h2
        · exact h
        · exact hall o2 h2
      · intro hall o2 h2
        exact hall o2 (List.mem_cons_of_mem _ h2)
    · simp only [firstUndeclaredKey, if_neg h]
      constructor
      · intro hc
        exact absurd hc (by simp)
      · intro hall
        exact absurd (hall o (by simp)) h

/-- The trust condition of the claim, over the pre-call registry. -/
def anyUntrustedInput (registry : List (Str × DatasetEntryV1))
    (inputs : List AssetRefV1) : Bool :=
  inputs.any (fun i =>
    decide ((mapLookup registry i.asset_key).map (fun e => e.trust) =
      some TrustClass.untrusted))

theorem collectInputs_ok_spec (registry : List (Str × DatasetEntryV1)) :
    ∀ (inputs : List AssetRefV1) (fps : List Digest) (anyU : Bool)
      (snaps : List (Str × Str)),
      collectInputs registry inputs = .ok (fps, anyU, snaps) →
      ((∀ i ∈ inputs, ∃ e, mapLookup registry i.asset_key = some e ∧
          (hexToBytes e.fingerprint_v0).isSome)
        ∧ anyU = anyUntrustedInput registry inputs
        ∧ ∀ p ∈ snaps, ∃ i, i ∈ inputs ∧ i.asset_key = p.1 ∧
            ∃ e, mapLookup registry p.1 = some e ∧ e.fingerprint_v0 = p.2)
  | [], fps, anyU, snaps => fun h => by
    simp only [collectInputs, Except.ok.injEq, Prod.mk.injEq] at h
    rcases h with ⟨_, h2, h3⟩
    subst h2; subst h3
    simp [anyUntrustedInput]
  | input :: t, fps, anyU, snaps => fun h => by
    rcases hlk : mapLookup registry input.asset_key with _ | e
    · simp [collectInputs, hlk] at h
    · rcases hhx : hexToBytes e.fingerprint_v0 with _ | fp_bytes
      · simp [collectInputs, hlk, hhx] at h
      · rcases hrest : collectInputs registry t with err | trip
        · simp [collectInputs, hlk, hhx, hrest] at h
        · rcases trip with ⟨fps2, anyU2, snaps2⟩
          have ih := collectInputs_ok_spec registry t fps2 anyU2 snaps2 hrest
          simp only [collectInputs, hlk, hhx, hrest, Except.ok.injEq,
            Prod.mk.injEq] at h
          rcases h with ⟨_, h2, h3⟩
          subst h2; subst h3
          refine ⟨?_, ?_, ?_⟩
          · intro i hi
            rcases List.mem_cons.mp hi with rfl | hi
            · exact ⟨e, hlk, by simp [hhx]⟩
            · exact ih.1 i hi
          · simp only [anyUntrustedInput, List.any_cons, hlk]
            rw [show anyU2 = anyUntrustedInput registry t from ih.2.1]
            simp [anyUntrustedInput]
          · intro p hp
            rcases List.mem_cons.mp hp with rfl | hp
            · exact ⟨input, by simp, rfl, e, hlk, rfl⟩
            · rcases ih.2.2 p hp with ⟨i, hi, hik, he⟩
              exact ⟨i, List.mem_cons_of_mem _ hi, hik, he⟩

theorem applyOutput_mats_step (H : HashModel) (rc : Digest) (tr : TrustClass)
    (nd : NodeV1) (nid : NodeId) (nids nh : Str) (snaps : List (Str × Str))
    (ts : Nat) (ch : Bool) (dm : Nat) (s : DataOpsSession) (o : OutputSpec) :
    ∃ m, (applyOutput H rc tr nd nid nids nh snaps ts ch dm s o).mats =
        s.mats ++ [m] ∧
      m.unsafe_surface = decide (tr = TrustClass.untrusted) :=
  ⟨_, rfl, rfl⟩

theorem foldl_applyOutput_not_mem (H : HashModel) (rc : Digest)
    (tr : TrustClass) (nd : NodeV1) (nid : NodeId) (nids nh : Str)
    (snaps : List (Str × Str)) (ts : Nat) (ch : Bool) (dm : Nat) :
    ∀ (outs : List OutputSpec) (s : DataOpsSession) (k : Str),
      k ∉ outs.map (fun o => o.asset_key) →
      mapLookup
        ((outs.foldl (applyOutput H rc tr nd nid nids nh snaps ts ch dm)
          s)).registry k = mapLookup s.registry k
  | [], s, k => fun _ => rfl
  | o :: t, s, k => fun hk => by
    have hne : ¬ o.asset_key = k := fun hc => hk (by simp [hc])
    have hkt : k ∉ t.map (fun o => o.asset_key) := fun hc => hk (by simp [hc])
    rw [List.foldl_cons,
      foldl_applyOutput_not_mem H rc tr nd nid nids nh snaps ts ch dm t _ k hkt]
    have : (applyOutput H rc tr nd nid nids nh snaps ts ch dm s o).registry =
        mapInsert s.registry o.asset_key _ := rfl
    rw [this, mapLookup_mapInsert, if_neg hne]

theorem foldl_applyOutput_registry_mem (H : HashModel) (rc : Digest)
    (tr : TrustClass) (nd : NodeV1) (nid : NodeId) (nids nh : Str)
    (snaps : List (Str × Str)) (ts : Nat) (ch : Bool) (dm : Nat) :
    ∀ (outs : List OutputSpec) (s : DataOpsSession) (o : OutputSpec),
      o ∈ outs → (outs.map (fun x => x.asset_key)).Nodup →
      ∃ e, mapLookup
          ((outs.foldl (applyOutput H rc tr nd nid nids nh snaps ts ch dm)
            s)).registry o.asset_key = some e ∧ e.trust = tr
  | [], s, o => fun ho _ => absurd ho (by simp)
  | o0 :: t, s, o => fun ho hnd => by
    have hs : (∀ x ∈ t, ¬ x.asset_key = o0.asset_key) ∧
        (t.map (fun x => x.asset_key)).Nodup := by simpa using hnd
    have hnin : o0.asset_key ∉ t.map (fun x => x.asset_key) := by
      intro hmem
      rcases List.mem_map.mp hmem with ⟨x, hx, hxe⟩
      exact hs.1 x hx hxe
    rcases List.mem_cons.mp ho with rfl | ho
    · rw [List.foldl_cons,
        foldl_applyOutput_not_mem H rc tr nd nid nids nh snaps ts ch dm t _
          o.asset_key hnin]
      exact ⟨_, mapLookup_mapInsert_self s.registry o.asset_key _, rfl⟩
    · rw [List.foldl_cons]
      exact foldl_applyOutput_registry_mem H rc tr nd nid nids nh snaps ts ch
        dm t _ o ho hs.2

theorem foldl_applyOutput_mats (H : HashModel) (rc : Digest) (tr : TrustClass)
    (nd : NodeV1) (nid : NodeId) (nids nh : Str) (snaps : List (Str × Str))
    (ts : Nat) (ch : Bool) (dm : Nat) :
    ∀ (outs : List OutputSpec) (s : DataOpsSession),
      ∃ new,
        ((outs.foldl (applyOutput H rc tr nd nid nids nh snaps ts ch dm)
          s)).mats = s.mats ++ new ∧
        new.length = outs.length ∧
        ∀ r ∈ new, r.unsafe_surface = decide (tr = TrustClass.untrusted)
  | [], s => ⟨[], by simp, rfl, by simp⟩
  | o :: t, s => by
    rcases applyOutput_mats_step H rc tr nd nid nids nh snaps ts ch dm s o with
      ⟨m, hm, hmu⟩
    rcases foldl_applyOutput_mats H rc tr nd nid nids nh snaps ts ch dm t
      (applyOutput H rc tr nd nid nids nh snaps ts ch dm s o) with
      ⟨new, h1, h2, h3⟩
    refine ⟨m :: new, ?_, by simp [h2], ?_⟩
    · rw [List.foldl_cons, h1, hm, List.append_assoc]
      rfl
    · intro r hr
      rcases List.mem_cons.mp hr with rfl | hr
      · exact hmu
      · exact h3 r hr

theorem foldl_applyOutput_lineage (H : HashModel) (rc : Digest)
    (tr : TrustClass) (nd : NodeV1) (nid : NodeId) (nids nh : Str)
    (snaps : List (Str × Str)) (ts : Nat) (ch : Bool) (dm : Nat) :
    ∀ (outs : List OutputSpec) (s : DataOpsSession) (key : Str × Str × Str)
      (edge : LineageEdgeV1),
      mapLookup
        ((outs.foldl (applyOutput H rc tr nd nid nids nh snaps ts ch dm)
          s)).lineage key = some edge →
      mapLookup s.lineage key = some edge ∨
        ∃ p ∈ snaps, edge.input_fingerprint_v0 = p.2
  | [], s, key, edge => fun h => .inl h
  | o :: t, s, key, edge => fun h => by
    rw [List.foldl_cons] at h
    rcases foldl_applyOutput_lineage H rc tr nd nid nids nh snaps ts ch dm t _
      key edge h with h1 | h1
    · have h2 := mapLookup_foldl_mapInsert
        (fun p : Str × Str =>
          ((p.2,
            hexLower (datasetFingerprintV0 H
              (derivedSourceFingerprintV0 H o.asset_key)
              ((o.schema.map (schemaHashV0 H)).getD (noSchemaHashV0 H)) rc),
            nids) : Str × Str × Str))
        (fun p : Str × Str =>
          ({ input_fingerprint_v0 := p.2
             output_fingerprint_v0 :=
               hexLower (datasetFingerprintV0 H
                 (derivedSourceFingerprintV0 H o.asset_key)
                 ((o.schema.map (schemaHashV0 H)).getD (noSchemaHashV0 H)) rc)
             node_id := nid
             op_kind := nd.op_kind } : LineageEdgeV1))
        snaps s.lineage key edge h1
      rcases h2 with h3 | ⟨p, hp, hv⟩
      · exact .inl h3
      · refine .inr ⟨p, hp, ?_⟩
        rw [hv]
    · exact .inr h1

theorem materialize_success_unfold (H : HashModel) (s : DataOpsSession)
    (node : NodeV1) (outputs : List OutputSpec) (ts : Nat) (ch : Bool)
    (dm : Nat) (s2 : DataOpsSession)
    (hok : DataOpsSession.materialize_node_outputs H s node outputs ts ch dm =
      (s2, none)) :
    ∃ fps anyU snaps,
      firstDuplicateKey [] outputs = none ∧
      firstUndeclaredKey (node.outputs.map (fun o => o.asset_key)) outputs =
        none ∧
      collectInputs s.registry node.inputs = .ok (fps, anyU, snaps) ∧
      s2 = outputs.foldl
        (applyOutput H (recipeHashV0 H node fps)
          (if anyU || ¬ node.execution_trust = ExecutionTrust.core
            then TrustClass.untrusted else TrustClass.trusted)
          node (node.node_id.getD (H.nodeIdFromKey node.node_key))
          (hexLower (node.node_id.getD (H.nodeIdFromKey node.node_key)))
          (hexLower (nodeDefHashV1 H node)) snaps ts ch dm) s := by
  cases hdup : firstDuplicateKey [] outputs with
  | some k => simp [DataOpsSession.materialize_node_outputs, hdup] at hok
  | none =>
    cases hund : firstUndeclaredKey (node.outputs.map (fun o => o.asset_key))
        outputs with
    | some k =>
      simp [DataOpsSession.materialize_node_outputs, hdup, hund] at hok
    | none =>
      cases hci : collectInputs s.registry node.inputs with
      | error e =>
        simp [DataOpsSession.materialize_node_outputs, hdup, hund, hci] at hok
      | ok trip =>
        rcases trip with ⟨fps, anyU, snaps⟩
        refine ⟨fps, anyU, snaps, rfl, rfl, rfl, ?_⟩
        simp only [DataOpsSession.materialize_node_outputs, hdup, hund,
          hci] at hok
        have := congrArg Prod.fst hok
        exact this.symm

/-- C5: on every successful `materialize_node_outputs` call, each output's
registry entry carries trust `Untrusted` exactly when some input's pre-call
registry entry is `Untrusted` or `node.execution_trust ≠ Core` (and `Trusted`
otherwise), and every appended materialization record's `unsafe_surface`
equals (output trust = `Untrusted`). -/
theorem C5_materialize_trust_propagation (H : HashModel) (s : DataOpsSession)
    (node : NodeV1) (outputs : List OutputSpec) (ts : Nat) (ch : Bool)
    (dm : Nat) (s2 : DataOpsSession)
    (hok : DataOpsSession.materialize_node_outputs H s node outputs ts ch dm =
      (s2, none)) :
    (∀ o ∈ outputs, ∃ e, mapLookup s2.registry o.asset_key = some e ∧
      e.trust =
        (if anyUntrustedInput s.registry node.inputs
            || ¬ node.execution_trust = ExecutionTrust.core
          then TrustClass.untrusted else TrustClass.trusted))
    ∧ ∃ new, s2.mats = s.mats ++ new ∧ new.length = outputs.length ∧
        ∀ r ∈ new, r.unsafe_surface =
          decide ((if anyUntrustedInput s.registry node.inputs
              || ¬ node.execution_trust = ExecutionTrust.core
            then TrustClass.untrusted else TrustClass.trusted) =
            TrustClass.untrusted) := by
  rcases materialize_success_unfold H s node outputs ts ch dm s2 hok with
    ⟨fps, anyU, snaps, hdup, hund, hci, hs2⟩
  have hanyU :=
    (collectInputs_ok_spec s.registry node.inputs fps anyU snaps hci).2.1
  subst hanyU
  have hnodup : (outputs.map (fun o => o.asset_key)).Nodup :=
    ((firstDuplicateKey_none_iff outputs []).mp hdup).1
  subst hs2
  constructor
  · intro o ho
    exact foldl_applyOutput_registry_mem H (recipeHashV0 H node fps) _ node _ _
      _ snaps ts ch dm outputs s o ho hnodup
  · exact foldl_applyOutput_mats H (recipeHashV0 H node fps) _ node _ _ _
      snaps ts ch dm outputs s

/-- C6: `materialize_node_outputs` returns an error, with the session state
(registry, lineage, materialization stream) untouched, whenever the outputs
contain a duplicate `asset_key`, some output key is undeclared in
`node.outputs`, some input key is absent from the registry, or some input's
stored `fingerprint_v0` is not valid 64-character hex. -/
theorem C6_materialize_prevalidation_fail_closed (H : HashModel)
    (s : DataOpsSession) (node : NodeV1) (outputs : List OutputSpec) (ts : Nat)
    (ch : Bool) (dm : Nat)
    (hbad : ¬ (outputs.map (fun o => o.asset_key)).Nodup
      ∨ (∃ o ∈ outputs,
          o.asset_key ∉ node.outputs.map (fun x => x.asset_key))
      ∨ (∃ i ∈ node.inputs, mapLookup s.registry i.asset_key = none)
      ∨ (∃ i ∈ node.inputs, ∃ e,
          mapLookup s.registry i.asset_key = some e ∧
            hexToBytes e.fingerprint_v0 = none)) :
    (DataOpsSession.materialize_node_outputs H s node outputs ts ch dm).1 = s
    ∧ ((DataOpsSession.materialize_node_outputs H s node outputs ts ch
        dm).2).isSome := by
  cases hdup : firstDuplicateKey [] outputs with
  | some k =>
    constructor <;>
      simp [DataOpsSession.materialize_node_outputs, hdup]
  | none =>
    cases hund : firstUndeclaredKey (node.outputs.map (fun o => o.asset_key))
        outputs with
    | some k =>
      constructor <;>
        simp [DataOpsSession.materialize_node_outputs, hdup, hund]
    | none =>
      cases hci : collectInputs s.registry node.inputs with
      | error e =>
        constructor <;>
          simp [DataOpsSession.materialize_node_outputs, hdup, hund, hci]
      | ok trip =>
        exfalso
        rcases trip with ⟨fps, anyU, snaps⟩
        have hspec :=
          collectInputs_ok_spec s.registry node.inputs fps anyU snaps hci
        rcases hbad with h | h | h | h
        · exact h ((firstDuplicateKey_none_iff outputs []).mp hdup).1
        · rcases h with ⟨o, ho, hkey⟩
          exact hkey
            ((firstUndeclaredKey_none_iff
              (node.outputs.map (fun x => x.asset_key)) outputs).mp hund o ho)
        · rcases h with ⟨i, hi, hnone⟩
          rcases hspec.1 i hi with ⟨e, he, _⟩
          rw [hnone] at he
          exact Option.noConfusion he
        · rcases h with ⟨i, hi, e, he, hhex⟩
          rcases hspec.1 i hi with ⟨e2, he2, hsome⟩
          rw [he] at he2
          rw [← Option.some.inj he2] at hsome
          rw [hhex] at hsome
          simp at hsome

/-- C7: every lineage edge inserted or overwritten by a successful
`materialize_node_outputs` call carries the `input_fingerprint_v0` of some
node input as recorded in the registry before the call began. -/
theorem C7_lineage_uses_premutation_fingerprints (H : HashModel)
    (s : DataOpsSession) (node : NodeV1) (outputs : List OutputSpec) (ts : Nat)
    (ch : Bool) (dm : Nat) (s2 : DataOpsSession)
    (hok : DataOpsSession.materialize_node_outputs H s node outputs ts ch dm =
      (s2, none)) :
    ∀ key edge, mapLookup s2.lineage key = some edge →
      mapLookup s.lineage key = some edge ∨
      ∃ i ∈ node.inputs, ∃ e, mapLookup s.registry i.asset_key = some e ∧
        edge.input_fingerprint_v0 = e.fingerprint_v0 := by
  rcases materialize_success_unfold H s node outputs ts ch dm s2 hok with
    ⟨fps, anyU, snaps, hdup, hund, hci, hs2⟩
  have hsnaps :=
    (collectInputs_ok_spec s.registry node.inputs fps anyU snaps hci).2.2
  subst hs2
  intro key edge hedge
  rcases foldl_applyOutput_lineage H (recipeHashV0 H node fps) _ node _ _ _
    snaps ts ch dm outputs s key edge hedge with h1 | ⟨p, hp, hfp⟩
  · exact .inl h1
  · rcases hsnaps p hp with ⟨i, hi, hik, e, he, hefp⟩
    refine .inr ⟨i, hi, e, ?_, ?_⟩
    · rw [hik]
      exact he
    · rw [hfp, hefp]

/-- Registry entry for the materialization witnesses (its fingerprint is the
64-character lowercase hex of a 32-byte digest). -/
def demoInputEntry : DatasetEntryV1 :=
  { asset_key := strBytes "dataset://ns/raw"
    fingerprint_v0 := hexLower (List.replicate 32 0)
    source_fingerprint_v0 := hexLower (List.replicate 32 0)
    schema_hash_v0 := hexLower (List.replicate 32 0)
    recipe_hash_v0 := hexLower (List.replicate 32 0)
    trust := TrustClass.untrusted
    source := none
    schema := none
    license_flags := []
    pii_tags := [] }

/-- Session holding one (untrusted) input asset. -/
def demoSession : DataOpsSession :=
  { registry := [(strBytes "dataset://ns/raw", demoInputEntry)]
    lineage := []
    mats := [] }

/-- Transform node reading the input asset and declaring one output. -/
def demoTransformNode : NodeV1 :=
  { node_key := strBytes "prep/clean"
    node_id := none
    op_kind := .data
    op_type := strBytes "validate"
    inputs := [{ asset_key := strBytes "dataset://ns/raw", fingerprint := none }]
    outputs := [{ asset_key := strBytes "dataset://ns/clean", fingerprint := none }]
    params := []
    code_ref := none
    unsafe_surface := false
    execution_trust := .core
    node_def_hash := none }

/-- The output list for the materialization witnesses. -/
def demoOutputs : List OutputSpec :=
  [{ asset_key := strBytes "dataset://ns/clean", schema := none,
     rows := none, bytes := none }]

/-- The session state after the witness materialization. -/
def demoSession2 : DataOpsSession :=
  (DataOpsSession.materialize_node_outputs demoHashModel demoSession
    demoTransformNode demoOutputs 1 false 2).1

/-- C5 witness: the trust-propagation theorem applied to the concrete
scenario above (whose single input is untrusted). -/
theorem C5_materialize_trust_propagation_witness :
    (∀ o ∈ demoOutputs, ∃ e,
      mapLookup demoSession2.registry o.asset_key = some e ∧
      e.trust =
        (if anyUntrustedInput demoSession.registry demoTransformNode.inputs
            || ¬ demoTransformNode.execution_trust = ExecutionTrust.core
          then TrustClass.untrusted else TrustClass.trusted))
    ∧ ∃ new, demoSession2.mats = demoSession.mats ++ new ∧
        new.length = demoOutputs.length ∧
        ∀ r ∈ new, r.unsafe_surface =
          decide ((if anyUntrustedInput demoSession.registry
                demoTransformNode.inputs
              || ¬ demoTransformNode.execution_trust = ExecutionTrust.core
            then TrustClass.untrusted else TrustClass.trusted) =
            TrustClass.untrusted) :=
  C5_materialize_trust_propagation demoHashModel demoSession demoTransformNode
    demoOutputs 1 false 2 demoSession2 (by decide)

/-- C6 witness: the fail-closed theorem applied to a node whose input asset is
absent from an empty session. -/
theorem C6_materialize_prevalidation_fail_closed_witness :
    (DataOpsSession.materialize_node_outputs demoHashModel
      DataOpsSession.empty demoTransformNode demoOutputs 1 false 2).1 =
      DataOpsSession.empty
    ∧ ((DataOpsSession.materialize_node_outputs demoHashModel
        DataOpsSession.empty demoTransformNode demoOutputs 1 false
        2).2).isSome :=
  C6_materialize_prevalidation_fail_closed demoHashModel DataOpsSession.empty
    demoTransformNode demoOutputs 1 false 2 (by decide)

/-- The one lineage key the witness materialization upserts. -/
def demoLineageKey : Str × Str × Str :=
  (hexLower (List.replicate 32 0), hexLower (List.replicate 32 0),
    hexLower (List.replicate 16 0))

/-- The lineage edge stored under `demoLineageKey`. -/
def demoLineageEdge : LineageEdgeV1 :=
  { input_fingerprint_v0 := hexLower (List.replicate 32 0)
    output_fingerprint_v0 := hexLower (List.replicate 32 0)
    node_id := List.replicate 16 0
    op_kind := .data }

/-- C7 witness: the lineage pre-mutation theorem applied to the concrete
scenario above, at the one edge that materialization inserts. -/
theorem C7_lineage_uses_premutation_fingerprints_witness :
    mapLookup demoSession.lineage demoLineageKey = some demoLineageEdge ∨
    ∃ i ∈ demoTransformNode.inputs, ∃ e,
      mapLookup demoSession.registry i.asset_key = some e ∧
      demoLineageEdge.input_fingerprint_v0 = e.fingerprint_v0 :=
  C7_lineage_uses_premutation_fingerprints demoHashModel demoSession
    demoTransformNode demoOutputs 1 false 2 demoSession2 (by decide)
    demoLineageKey demoLineageEdge (by decide)

/-! ## C3: staged envelope verification -/

theorem mapLookup_filter_ne {K V : Type} [DecidableEq K] (p : K) :
    ∀ (l : List (K × V)) (q : K), ¬ q = p →
      mapLookup (l.filter (fun e => ¬ e.1 = p)) q = mapLookup l q
  | [], q => fun _ => rfl
  | (k, v) :: t, q => fun hq => by
    by_cases hk : k = p
    · subst hk
      have hkq : ¬ k = q := fun hc => hq hc.symm
      have hfc : ((k, v) :: t).filter (fun e => ¬ e.1 = k) =
          t.filter (fun e => ¬ e.1 = k) := by simp
      rw [hfc, mapLookup_filter_ne k t q hq]
      simp [mapLookup, hkq]
    · have hfc : ((k, v) :: t).filter (fun e => ¬ e.1 = p) =
          (k, v) :: t.filter (fun e => ¬ e.1 = p) := by simp [hk]
      rw [hfc]
      by_cases hkq : k = q
      · simp [mapLookup, hkq]
      · simp only [mapLookup, if_neg hkq]
        exact mapLookup_filter_ne p t q hq

theorem filter_ne_of_not_mem {K V : Type} [DecidableEq K] (p : K) :
    ∀ l : List (K × V), p ∉ l.map Prod.fst →
      l.filter (fun e => ¬ e.1 = p) = l
  | [] => fun _ => rfl
  | (k, v) :: t => fun hp => by
    have hk : ¬ k = p := fun hc => hp (by simp [hc])
    have ht : p ∉ t.map Prod.fst := fun hc => hp (by simp [hc])
    have hfc : ((k, v) :: t).filter (fun e => ¬ e.1 = p) =
        (k, v) :: t.filter (fun e => ¬ e.1 = p) := by simp [hk]
    rw [hfc, filter_ne_of_not_mem p t ht]

theorem filter_ne_length {K V : Type} [DecidableEq K] (p : K) :
    ∀ (l : List (K × V)) (st : V), (l.map Prod.fst).Nodup →
      mapLookup l p = some st →
      (l.filter (fun e => ¬ e.1 = p)).length + 1 = l.length
  | [], st => fun _ h => by simp [mapLookup] at h
  | (k, v) :: t, st => fun hnd h => by
    have hnd2 : (t.map Prod.fst).Nodup ∧ k ∉ t.map Prod.fst := by
      simp only [List.map_cons, List.nodup_cons] at hnd
      exact ⟨hnd.2, hnd.1⟩
    by_cases hk : k = p
    · subst hk
      have hfc : ((k, v) :: t).filter (fun e => ¬ e.1 = k) =
          t.filter (fun e => ¬ e.1 = k) := by simp
      rw [hfc, filter_ne_of_not_mem k t hnd2.2]
      simp
    · simp only [mapLookup, if_neg hk] at h
      have hfc : ((k, v) :: t).filter (fun e => ¬ e.1 = p) =
          (k, v) :: t.filter (fun e => ¬ e.1 = p) := by simp [hk]
      have ih := filter_ne_length p t st hnd2.1 h
      rw [hfc]
      simp only [List.length_cons]
      omega

theorem validate_and_update_error_state (st : PeerReplayState) (seq : Nat)
    (peer : PeerId) :
    ((st.validate_and_update seq peer).2).isSome →
    (st.validate_and_update seq peer).1 = st := by
  unfold PeerReplayState.validate_and_update
  split_ifs <;> simp

theorem validate_sequence_error_state (rp : ReplayProtection) (peer : PeerId)
    (seq : Nat) (rp2 : ReplayProtection) (e : ReplayError)
    (hnodup : (rp.peer_state.map Prod.fst).Nodup)
    (h : rp.validate_sequence peer seq = (rp2, some e)) :
    (∀ q, mapLookup rp2.peer_state q = mapLookup rp.peer_state q)
    ∧ rp2.cache_size = rp.cache_size := by
  unfold ReplayProtection.validate_sequence at h
  cases hlk : mapLookup rp.peer_state peer with
  | none =>
    rw [hlk] at h
    simp at h
  | some st =>
    rw [hlk] at h
    have hvu2 : (st.validate_and_update seq peer).2 = some e :=
      congrArg Prod.snd h
    have hst : (st.validate_and_update seq peer).1 = st :=
      validate_and_update_error_state st seq peer (by simp [hvu2])
    have hrp2 := (congrArg Prod.fst h).symm
    simp only at hrp2
    rw [hst] at hrp2
    subst hrp2
    constructor
    · intro q
      by_cases hq : q = peer
      · subst hq
        simp only [mapLookup, if_pos rfl]
        exact hlk.symm
      · have hpq : ¬ peer = q := fun hc => hq hc.symm
        simp only [mapLookup, hpq, if_neg hpq]
        exact mapLookup_filter_ne peer rp.peer_state q hq
    · simp only [ReplayProtection.cache_size, List.length_cons]
      exact filter_ne_length peer rp.peer_state st hnodup hlk

/-- C3: `verify_authenticated` checks, in order: supported version, timestamp
within the clock-skew window, presence of a 64-byte signature, Ed25519
verification, and only then the per-peer sequence check; whenever any stage
fails, every peer's replay state and the replay cache size are exactly as
before the call. -/
theorem C3_verify_authenticated_staged (cv : CryptoVerifyFn)
    (env : MessageEnvelope) (rp : ReplayProtection) (now : Nat)
    (hnodup : (rp.peer_state.map Prod.fst).Nodup) :
    ((¬ env.is_version_supported = true →
      env.verify_authenticated cv rp now =
        (rp, some (.unsupportedVersion env.version.1 env.version.2)))
    ∧ (∀ e, env.is_version_supported = true →
        rp.check_timestamp_only env.timestamp now = some e →
        env.verify_authenticated cv rp now = (rp, some (.replay e)))
    ∧ (env.is_version_supported = true →
        rp.check_timestamp_only env.timestamp now = none →
        env.signature = none →
        env.verify_authenticated cv rp now = (rp, some .missingSignature))
    ∧ (∀ sig, env.is_version_supported = true →
        rp.check_timestamp_only env.timestamp now = none →
        env.signature = some sig → ¬ sig.length = 64 →
        env.verify_authenticated cv rp now =
          (rp, some (.invalidSignatureLength 64 sig.length)))
    ∧ (∀ sig ce, env.is_version_supported = true →
        rp.check_timestamp_only env.timestamp now = none →
        env.signature = some sig → sig.length = 64 →
        cv env.sender env.version env.message_type.toByte env.sequence
          env.timestamp env.payload sig = some ce →
        env.verify_authenticated cv rp now = (rp, some (.crypto ce)))
    ∧ ∀ rp2 err, env.verify_authenticated cv rp now = (rp2, some err) →
        (∀ p, mapLookup rp2.peer_state p = mapLookup rp.peer_state p)
        ∧ rp2.cache_size = rp.cache_size) := by
  refine ⟨?_, ?_, ?_, ?_, ?_, ?_⟩
  · intro hv
    simp [MessageEnvelope.verify_authenticated, hv]
  · intro e hv hts
    simp [MessageEnvelope.verify_authenticated, hv, hts]
  · intro hv hts hsig
    simp [MessageEnvelope.verify_authenticated, hv, hts, hsig]
  · intro sig hv hts hsig hlen
    simp [MessageEnvelope.verify_authenticated, hv, hts, hsig, hlen]
  · intro sig ce hv hts hsig hlen hcv
    simp [MessageEnvelope.verify_authenticated, hv, hts, hsig, hlen, hcv]
  · intro rp2 err herr
    by_cases hv : env.is_version_supported = true
    · cases hts : rp.check_timestamp_only env.timestamp now with
      | some e =>
        simp only [MessageEnvelope.verify_authenticated, hv, not_true,
          if_false, hts] at herr
        have := (congrArg Prod.fst herr).symm
        simp only at this
        subst this
        exact ⟨fun p => rfl, rfl⟩
      | none =>
        cases hsig : env.signature with
        | none =>
          simp only [MessageEnvelope.verify_authenticated, hv, not_true,
            if_false, hts, hsig] at herr
          have := (congrArg Prod.fst herr).symm
          simp only at this
          subst this
          exact ⟨fun p => rfl, rfl⟩
        | some sig =>
          by_cases hlen : sig.length = 64
          · cases hcv : cv env.sender env.version env.message_type.toByte
                env.sequence env.timestamp env.payload sig with
            | some ce =>
              simp only [MessageEnvelope.verify_authenticated, hv, not_true,
                if_false, hts, hsig, hlen, hcv, not_false_iff] at herr
              have := (congrArg Prod.fst herr).symm
              simp only at this
              subst this
              exact ⟨fun p => rfl, rfl⟩
            | none =>
              simp only [MessageEnvelope.verify_authenticated, hv, not_true,
                if_false, hts, hsig, hlen, hcv, not_false_iff] at herr
              cases hvs : (rp.validate_sequence env.sender env.sequence).2 with
              | none =>
                rw [hvs] at herr
                simp at herr
              | some e2 =>
                rw [hvs] at herr
                simp only [Option.some.injEq] at herr
                have h1 : (rp.validate_sequence env.sender env.sequence).1 =
                    rp2 := congrArg Prod.fst herr
                exact validate_sequence_error_state rp env.sender env.sequence
                  rp2 e2 hnodup (by rw [← h1, ← hvs])
          · simp only [MessageEnvelope.verify_authenticated, hv, not_true,
              if_false, hts, hsig, hlen, not_false_iff] at herr
            have := (congrArg Prod.fst herr).symm
            simp only at this
            subst this
            exact ⟨fun p => rfl, rfl⟩
    · simp only [MessageEnvelope.verify_authenticated, hv, not_false_iff,
        if_true] at herr
      have := (congrArg Prod.fst herr).symm
      simp only at this
      subst this
      exact ⟨fun p => rfl, rfl⟩

/-- Crypto verifier instance for the C3 witness (accepts everything). -/
def demoCryptoOk : CryptoVerifyFn := fun _ _ _ _ _ _ _ => none

/-- Envelope with an unsupported version for the C3 witness. -/
def demoBadVersionEnvelope : MessageEnvelope :=
  { version := (9, 9)
    message_type := .heartbeat
    sender := List.replicate 32 7
    sequence := 1
    timestamp := 1000
    payload := strBytes "test"
    signature := none }

/-- C3 witness: the staged-verification theorem applied to a concrete
envelope against a fresh replay guard. -/
theorem C3_verify_authenticated_staged_witness :
    ((¬ demoBadVersionEnvelope.is_version_supported = true →
      demoBadVersionEnvelope.verify_authenticated demoCryptoOk
          ReplayProtection.new 1000 =
        (ReplayProtection.new,
          some (.unsupportedVersion demoBadVersionEnvelope.version.1
            demoBadVersionEnvelope.version.2)))
    ∧ (∀ e, demoBadVersionEnvelope.is_version_supported = true →
        ReplayProtection.new.check_timestamp_only
          demoBadVersionEnvelope.timestamp 1000 = some e →
        demoBadVersionEnvelope.verify_authenticated demoCryptoOk
          ReplayProtection.new 1000 = (ReplayProtection.new, some (.replay e)))
    ∧ (demoBadVersionEnvelope.is_version_supported = true →
        ReplayProtection.new.check_timestamp_only
          demoBadVersionEnvelope.timestamp 1000 = none →
        demoBadVersionEnvelope.signature = none →
        demoBadVersionEnvelope.verify_authenticated demoCryptoOk
          ReplayProtection.new 1000 =
          (ReplayProtection.new, some .missingSignature))
    ∧ (∀ sig, demoBadVersionEnvelope.is_version_supported = true →
        ReplayProtection.new.check_timestamp_only
          demoBadVersionEnvelope.timestamp 1000 = none →
        demoBadVersionEnvelope.signature = some sig → ¬ sig.length = 64 →
        demoBadVersionEnvelope.verify_authenticated demoCryptoOk
          ReplayProtection.new 1000 =
          (ReplayProtection.new, some (.invalidSignatureLength 64 sig.length)))
    ∧ (∀ sig ce, demoBadVersionEnvelope.is_version_supported = true →
        ReplayProtection.new.check_timestamp_only
          demoBadVersionEnvelope.timestamp 1000 = none →
        demoBadVersionEnvelope.signature = some sig → sig.length = 64 →
        demoCryptoOk demoBadVersionEnvelope.sender
          demoBadVersionEnvelope.version
          demoBadVersionEnvelope.message_type.toByte
          demoBadVersionEnvelope.sequence demoBadVersionEnvelope.timestamp
          demoBadVersionEnvelope.payload sig = some ce →
        demoBadVersionEnvelope.verify_authenticated demoCryptoOk
          ReplayProtection.new 1000 = (ReplayProtection.new, some (.crypto ce)))
    ∧ ∀ rp2 err, demoBadVersionEnvelope.verify_authenticated demoCryptoOk
          ReplayProtection.new 1000 = (rp2, some err) →
        (∀ p, mapLookup rp2.peer_state p =
          mapLookup ReplayProtection.new.peer_state p)
        ∧ rp2.cache_size = ReplayProtection.new.cache_size) :=
  C3_verify_authenticated_staged demoCryptoOk demoBadVersionEnvelope
    ReplayProtection.new 1000 (by decide)

/-! ## C2: replay idempotence on reachable `ReplayProtection` states -/

/-- Run a trace of `(peer, sequence)` events through
`ReplayProtection::validate_sequence`. -/
def runTrace (rp : ReplayProtection) : List (PeerId × Nat) → ReplayProtection
  | [] => rp
  | e :: t => runTrace (rp.validate_sequence e.1 e.2).1 t

/-- Whether the pair `(p, s)` was accepted (validated with no error) at some
point of the trace. -/
def acceptedInTrace (rp : ReplayProtection) :
    List (PeerId × Nat) → PeerId → Nat → Bool
  | [], _, _ => false
  | e :: t, p, s =>
    (decide (e.1 = p) && decide (e.2 = s) &&
      decide ((rp.validate_sequence e.1 e.2).2 = none))
    || acceptedInTrace (rp.validate_sequence e.1 e.2).1 t p s

/-- Peer for the C2 counterexample. -/
def demoPeer : PeerId := List.replicate 32 1

/-- C2 counterexample: after accepting `(peer, 4)` and then `(peer, 20)`,
pruning drops `4` from `recent_sequences` (threshold `20 − 16 = 4`), yet the
too-old check (`4 + 16 < 20` is false) does not exclude it, so re-presenting
`(peer, 4)` is accepted a second time instead of returning `Replay`. -/
theorem C2_counterexample_boundary_replay_accepted :
    ((ReplayProtection.new.validate_sequence demoPeer 4).2 = none
    ∧ (((ReplayProtection.new.validate_sequence demoPeer 4).1.validate_sequence
        demoPeer 20).2 = none)
    ∧ ((((ReplayProtection.new.validate_sequence demoPeer
          4).1.validate_sequence demoPeer 20).1.validate_sequence demoPeer
        4).2 = none)) := by decide

/-- The per-peer possession invariant: an accepted sequence is either still
recorded in `recent_sequences` or has been pruned, in which case it lies at or
below `last_sequence − TOLERANCE`. -/
def SeqInv (st : PeerReplayState) (s : Nat) : Prop :=
  s ∈ st.recent_sequences ∨
    s ≤ st.last_sequence - SEQUENCE_TOLERANCE_WINDOW

theorem seqInv_preserved (st : PeerReplayState) (x : Nat) (p : PeerId)
    (s : Nat) (h : SeqInv st s) : SeqInv (st.validate_and_update x p).1 s := by
  unfold PeerReplayState.validate_and_update
  by_cases h1 : x ∈ st.recent_sequences
  · simpa [h1] using h
  · by_cases h2 : satAdd x SEQUENCE_TOLERANCE_WINDOW < st.last_sequence
    · simpa [h1, h2] using h
    · rw [if_neg h1, if_neg h2]
      rcases h with hmem | hle
      · by_cases hs : max st.last_sequence x - SEQUENCE_TOLERANCE_WINDOW < s
        · left
          refine List.mem_filter.mpr ⟨?_, decide_eq_true hs⟩
          unfold setInsert
          by_cases hx : x ∈ st.recent_sequences
          · simpa [hx] using hmem
          · simp [hx, hmem]
        · right
          show s ≤ max st.last_sequence x - SEQUENCE_TOLERANCE_WINDOW
          omega
      · right
        show s ≤ max st.last_sequence x - SEQUENCE_TOLERANCE_WINDOW
        have hmax : st.last_sequence ≤ max st.last_sequence x := le_max_left _ _
        omega

theorem seqInv_accepted (st : PeerReplayState) (p : PeerId) (s : Nat)
    (h : (st.validate_and_update s p).2 = none) :
    SeqInv (st.validate_and_update s p).1 s := by
  unfold PeerReplayState.validate_and_update at h ⊢
  by_cases h1 : s ∈ st.recent_sequences
  · simp [h1] at h
  · by_cases h2 : satAdd s SEQUENCE_TOLERANCE_WINDOW < st.last_sequence
    · simp [h1, h2] at h
    · rw [if_neg h1, if_neg h2]
      by_cases hs : max st.last_sequence s - SEQUENCE_TOLERANCE_WINDOW < s
      · left
        refine List.mem_filter.mpr ⟨?_, decide_eq_true hs⟩
        simp [setInsert, h1]
      · right
        show s ≤ max st.last_sequence s - SEQUENCE_TOLERANCE_WINDOW
        omega

theorem mapLookup_eq_none_iff {K V : Type} [DecidableEq K] :
    ∀ (l : List (K × V)) (k : K),
      mapLookup l k = none ↔ k ∉ l.map Prod.fst
  | [], k => by simp [mapLookup]
  | (k0, v0) :: t, k => by
    by_cases h : k0 = k
    · simp [mapLookup, h]
    · simp only [mapLookup, if_neg h, List.map_cons, List.mem_cons]
      rw [mapLookup_eq_none_iff t k]
      constructor
      · intro hn hc
        rcases hc with hc | hc
        · exact h hc.symm
        · exact hn hc
      · intro hn hc
        exact hn (Or.inr hc)

theorem keys_filter_ne {K V : Type} [DecidableEq K] (q : K) :
    ∀ l : List (K × V),
      (l.filter (fun e => ¬ e.1 = q)).map Prod.fst =
        (l.map Prod.fst).filter (fun k => ¬ k = q)
  | [] => rfl
  | (k, v) :: t => by
    by_cases h : k = q
    · have h1 : ((k, v) :: t).filter (fun e => ¬ e.1 = q) =
          t.filter (fun e => ¬ e.1 = q) := by simp [h]
      have h2 : (k :: t.map Prod.fst).filter (fun x => ¬ x = q) =
          (t.map Prod.fst).filter (fun x => ¬ x = q) := by simp [h]
      rw [h1, List.map_cons, h2]
      exact keys_filter_ne q t
    · have h1 : ((k, v) :: t).filter (fun e => ¬ e.1 = q) =
          (k, v) :: t.filter (fun e => ¬ e.1 = q) := by simp [h]
      have h2 : (k :: t.map Prod.fst).filter (fun x => ¬ x = q) =
          k :: (t.map Prod.fst).filter (fun x => ¬ x = q) := by simp [h]
      rw [h1, List.map_cons, List.map_cons, h2, keys_filter_ne q t]

theorem replay_trace_invariant :
    ∀ (tr : List (PeerId × Nat)) (rp : ReplayProtection) (p : PeerId)
      (s : Nat),
      (rp.peer_state.map Prod.fst).Nodup →
      (rp.peer_state.map Prod.fst ++ tr.map Prod.fst).toFinset.card ≤
        rp.capacity →
      (acceptedInTrace rp tr p s = true ∨
        ∃ st, mapLookup rp.peer_state p = some st ∧ SeqInv st s) →
      ∃ st, mapLookup (runTrace rp tr).peer_state p = some st ∧ SeqInv st s
  | [], rp, p, s => fun _ _ h => by
    rcases h with h | h
    · simp [acceptedInTrace] at h
    · exact h
  | (q, x) :: t, rp, p, s => fun hnd hcard h => by
    have hrun : runTrace rp ((q, x) :: t) =
        runTrace (rp.validate_sequence q x).1 t := rfl
    cases hlk : mapLookup rp.peer_state q with
    | some st0 =>
      have hqmem : q ∈ rp.peer_state.map Prod.fst := by
        by_contra hq
        rw [← mapLookup_eq_none_iff] at hq
        rw [hlk] at hq
        exact Option.noConfusion hq
      have hstep : (rp.validate_sequence q x).1 =
          { rp with peer_state := (q, (st0.validate_and_update x q).1) ::
              rp.peer_state.filter (fun e => ¬ e.1 = q) } := by
        unfold ReplayProtection.validate_sequence
        rw [hlk]
      have hres : (rp.validate_sequence q x).2 =
          (st0.validate_and_update x q).2 := by
        unfold ReplayProtection.validate_sequence
        rw [hlk]
      have hkeys : ((rp.validate_sequence q x).1).peer_state.map Prod.fst =
          q :: (rp.peer_state.map Prod.fst).filter (fun k => ¬ k = q) := by
        rw [hstep]
        simp only [List.map_cons]
        rw [keys_filter_ne]
      have hnd2 : (((rp.validate_sequence q x).1).peer_state.map
          Prod.fst).Nodup := by
        rw [hkeys]
        refine List.nodup_cons.mpr ⟨?_, hnd.filter _⟩
        intro hc
        exact (by simpa using (List.mem_filter.mp hc).2 : ¬ q = q) rfl
      have hcap2 : (((rp.validate_sequence q x).1).peer_state.map Prod.fst ++
          t.map Prod.fst).toFinset.card ≤
            ((rp.validate_sequence q x).1).capacity := by
      -- subset of the original key universe
        have hsub : (((rp.validate_sequence q x).1).peer_state.map Prod.fst ++
            t.map Prod.fst).toFinset ⊆
            (rp.peer_state.map Prod.fst ++
              ((q, x) :: t).map Prod.fst).toFinset := by
          intro a ha
          rw [List.mem_toFinset, List.mem_append, hkeys] at ha
          rw [List.mem_toFinset, List.mem_append]
          rcases ha with ha | ha
          · rcases List.mem_cons.mp ha with rfl | ha
            · exact Or.inl hqmem
            · exact Or.inl (List.mem_filter.mp ha).1
          · exact Or.inr (by simp [ha])
        have hcapeq : ((rp.validate_sequence q x).1).capacity = rp.capacity := by
          rw [hstep]
        rw [hcapeq]
        exact le_trans (Finset.card_le_card hsub) hcard
      have hnext : acceptedInTrace (rp.validate_sequence q x).1 t p s = true ∨
          ∃ st, mapLookup ((rp.validate_sequence q x).1).peer_state p =
            some st ∧ SeqInv st s := by
        rcases h with hacc | ⟨st, hst, hinv⟩
        · simp only [acceptedInTrace, Bool.or_eq_true, Bool.and_eq_true,
            decide_eq_true_eq] at hacc
          rcases hacc with ⟨⟨rfl, rfl⟩, hok⟩ | hrest
          · right
            refine ⟨(st0.validate_and_update x q).1, ?_, ?_⟩
            · rw [hstep]
              simp [mapLookup]
            · rw [hres] at hok
              exact seqInv_accepted st0 q x hok
          · exact Or.inl hrest
        · right
          by_cases hpq : p = q
          · subst hpq
            rw [hst] at hlk
            have hst0 : st = st0 := Option.some.inj hlk
            subst hst0
            refine ⟨(st.validate_and_update x p).1, ?_, ?_⟩
            · rw [hstep]
              simp [mapLookup]
            · exact seqInv_preserved st x p s hinv
          · refine ⟨st, ?_, hinv⟩
            rw [hstep]
            have hqp : ¬ q = p := fun hc => hpq hc.symm
            simp only [mapLookup, if_neg hqp]
            rw [mapLookup_filter_ne q rp.peer_state p hpq]
            exact hst
      rw [hrun]
      exact replay_trace_invariant t (rp.validate_sequence q x).1 p s hnd2
        hcap2 hnext
    | none =>
      have hqnot : q ∉ rp.peer_state.map Prod.fst :=
        (mapLookup_eq_none_iff _ _).mp hlk
      have hlen : rp.peer_state.length + 1 ≤ rp.capacity := by
        have h1 : (rp.peer_state.map Prod.fst).toFinset.card =
            rp.peer_state.length := by
          rw [List.toFinset_card_of_nodup hnd, List.length_map]
        have hsub : insert q (rp.peer_state.map Prod.fst).toFinset ⊆
            (rp.peer_state.map Prod.fst ++
              ((q, x) :: t).map Prod.fst).toFinset := by
          intro a ha
          rw [Finset.mem_insert] at ha
          rw [List.mem_toFinset, List.mem_append]
          rcases ha with rfl | ha
          · exact Or.inr (by simp)
          · exact Or.inl (by simpa using ha)
        have h2 := Finset.card_le_card hsub
        rw [Finset.card_insert_of_not_mem (by simpa using hqnot), h1] at h2
        exact le_trans h2 hcard
      have hnotlt : ¬ rp.capacity <
          ((q, PeerReplayState.new x) :: rp.peer_state).length := by
        simp only [List.length_cons]
        omega
      have hstep : (rp.validate_sequence q x).1 =
          { rp with peer_state :=
              (q, PeerReplayState.new x) :: rp.peer_state } := by
        unfold ReplayProtection.validate_sequence
        rw [hlk]
        simp only [if_neg hnotlt]
      have hkeys : ((rp.validate_sequence q x).1).peer_state.map Prod.fst =
          q :: rp.peer_state.map Prod.fst := by
        rw [hstep]
        rfl
      have hnd2 : (((rp.validate_sequence q x).1).peer_state.map
          Prod.fst).Nodup := by
        rw [hkeys]
        exact List.nodup_cons.mpr ⟨hqnot, hnd⟩
      have hcap2 : (((rp.validate_sequence q x).1).peer_state.map Prod.fst ++
          t.map Prod.fst).toFinset.card ≤
            ((rp.validate_sequence q x).1).capacity := by
        have hsub : (((rp.validate_sequence q x).1).peer_state.map Prod.fst ++
            t.map Prod.fst).toFinset ⊆
            (rp.peer_state.map Prod.fst ++
              ((q, x) :: t).map Prod.fst).toFinset := by
          intro a ha
          rw [List.mem_toFinset, List.mem_append, hkeys] at ha
          rw [List.mem_toFinset, List.mem_append]
          rcases ha with ha | ha
          · rcases List.mem_cons.mp ha with rfl | ha
            · exact Or.inr (by simp)
            · exact Or.inl ha
          · exact Or.inr (by simp [ha])
        have hcapeq : ((rp.validate_sequence q x).1).capacity = rp.capacity := by
          rw [hstep]
        rw [hcapeq]
        exact le_trans (Finset.card_le_card hsub) hcard
      have hnext : acceptedInTrace (rp.validate_sequence q x).1 t p s = true ∨
          ∃ st, mapLookup ((rp.validate_sequence q x).1).peer_state p =
            some st ∧ SeqInv st s := by
        rcases h with hacc | ⟨st, hst, hinv⟩
        · simp only [acceptedInTrace, Bool.or_eq_true, Bool.and_eq_true,
            decide_eq_true_eq] at hacc
          rcases hacc with ⟨⟨rfl, rfl⟩, _⟩ | hrest
          · right
            refine ⟨PeerReplayState.new x, ?_, ?_⟩
            · rw [hstep]
              simp [mapLookup]
            · exact Or.inl (by simp [PeerReplayState.new])
          · exact Or.inl hrest
        · right
          have hpq : ¬ p = q := by
            intro hc
            subst hc
            rw [hst] at hlk
            exact Option.noConfusion hlk
          refine ⟨st, ?_, hinv⟩
          rw [hstep]
          have hqp : ¬ q = p := fun hc => hpq hc.symm
          simp only [mapLookup, if_neg hqp]
          exact hst
      rw [hrun]
      exact replay_trace_invariant t (rp.validate_sequence q x).1 p s hnd2
        hcap2 hnext

/-- The per-peer state after a run of `validate_and_update` calls: the
history of a cache entry that is never evicted (each `validate_sequence` for
a resident peer rewrites its entry with `validate_and_update`'s result,
leaving it untouched on error). -/
def peerRunTrace (p : PeerId) : PeerReplayState → List Nat → PeerReplayState
  | st, [] => st
  | st, x :: t => peerRunTrace p (st.validate_and_update x p).1 t

/-- Whether `s` was accepted (no error) at some step of the run. -/
def peerAcceptedInTrace (p : PeerId) :
    PeerReplayState → List Nat → Nat → Bool
  | _, [], _ => false
  | st, x :: t, s =>
    (decide (x = s) && decide ((st.validate_and_update x p).2 = none))
    || peerAcceptedInTrace p (st.validate_and_update x p).1 t s

theorem peer_trace_inv (p : PeerId) :
    ∀ (xs : List Nat) (st : PeerReplayState) (s : Nat),
      (SeqInv st s ∨ peerAcceptedInTrace p st xs s = true) →
      SeqInv (peerRunTrace p st xs) s
  | [], st, s => fun h => by
    rcases h with h | h
    · exact h
    · simp [peerAcceptedInTrace] at h
  | x :: t, st, s => fun h => by
    have hrun : peerRunTrace p st (x :: t) =
        peerRunTrace p (st.validate_and_update x p).1 t := rfl
    rw [hrun]
    rcases h with h | h
    · exact peer_trace_inv p t _ s (Or.inl (seqInv_preserved st x p s h))
    · simp only [peerAcceptedInTrace, Bool.or_eq_true, Bool.and_eq_true,
        decide_eq_true_eq] at h
      rcases h with ⟨rfl, hok⟩ | hrest
      · exact peer_trace_inv p t _ _ (Or.inl (seqInv_accepted st p x hok))
      · exact peer_trace_inv p t _ s (Or.inr hrest)

/-- C2 (amended): once `(peer, seq)` has been accepted by
`validate_sequence` — at the insertion that created the peer's cache entry
(`PeerReplayState::new seq`) or at a later accepted call — then for as long
as that entry remains in the LRU cache (its state evolving only through
subsequent `validate_and_update` steps for this peer, never evicted, with
arbitrary churn among other peers), presenting `(peer, seq)` again is
rejected: with `Replay` while `seq` is still in `recent_sequences`, and with
`SequenceTooOld` once `seq` has been pruned and `last_sequence` has advanced
past `seq + SEQUENCE_TOLERANCE_WINDOW` (saturating); it is accepted a second
time exactly in the remaining pruning-boundary case, where `seq` was pruned
(`seq ≤ last_sequence − 16`) yet `last_sequence ≤ seq + 16`. -/
theorem C2_replay_rejection_amended (p : PeerId) (s0 : Nat) (xs : List Nat)
    (s : Nat) (st : PeerReplayState) (rp : ReplayProtection)
    (hst : peerRunTrace p (PeerReplayState.new s0) xs = st)
    (hacc : s = s0 ∨
      peerAcceptedInTrace p (PeerReplayState.new s0) xs s = true)
    (hres : mapLookup rp.peer_state p = some st) :
    (s ∈ st.recent_sequences →
      (rp.validate_sequence p s).2 = some (.replay p s)) ∧
    (¬ s ∈ st.recent_sequences →
      satAdd s SEQUENCE_TOLERANCE_WINDOW < st.last_sequence →
      (rp.validate_sequence p s).2 = some (.tooOld p s st.last_sequence)) ∧
    ((rp.validate_sequence p s).2 = none →
      ¬ s ∈ st.recent_sequences ∧
      s ≤ st.last_sequence - SEQUENCE_TOLERANCE_WINDOW ∧
      st.last_sequence ≤ satAdd s SEQUENCE_TOLERANCE_WINDOW) := by
  have hinv : SeqInv st s := by
    rw [← hst]
    refine peer_trace_inv p xs (PeerReplayState.new s0) s ?_
    rcases hacc with rfl | hacc
    · exact Or.inl (Or.inl (by simp [PeerReplayState.new]))
    · exact Or.inr hacc
  refine ⟨?_, ?_, ?_⟩
  · intro hmem
    unfold ReplayProtection.validate_sequence
    rw [hres]
    simp [PeerReplayState.validate_and_update, hmem]
  · intro hnot hlt
    unfold ReplayProtection.validate_sequence
    rw [hres]
    simp [PeerReplayState.validate_and_update, hnot, hlt]
  · intro hok
    unfold ReplayProtection.validate_sequence at hok
    rw [hres] at hok
    simp only at hok
    unfold PeerReplayState.validate_and_update at hok
    by_cases h1 : s ∈ st.recent_sequences
    · rw [if_pos h1] at hok
      exact absurd hok (by simp)
    · by_cases h2 : satAdd s SEQUENCE_TOLERANCE_WINDOW < st.last_sequence
      · rw [if_neg h1, if_pos h2] at hok
        exact absurd hok (by simp)
      · refine ⟨h1, ?_, Nat.le_of_not_lt h2⟩
        rcases hinv with hmem | hle
        · exact absurd hmem h1
        · exact hle

/-- The resident per-peer state of the C2 witness: the entry is created by
accepting `4`, then a later accepted `20` prunes `4`. -/
def demoPeerSt : PeerReplayState :=
  peerRunTrace demoPeer (PeerReplayState.new 4) [20]

/-- A protection state in which that entry is resident. -/
def demoRp : ReplayProtection :=
  ⟨1000, 60, [(demoPeer, demoPeerSt)]⟩

/-- C2 witness: the amended theorem applied to the concrete resident state
above, for the previously accepted sequence `4`. -/
theorem C2_replay_rejection_amended_witness :
    (4 ∈ demoPeerSt.recent_sequences →
      (demoRp.validate_sequence demoPeer 4).2 =
        some (.replay demoPeer 4)) ∧
    (¬ 4 ∈ demoPeerSt.recent_sequences →
      satAdd 4 SEQUENCE_TOLERANCE_WINDOW < demoPeerSt.last_sequence →
      (demoRp.validate_sequence demoPeer 4).2 =
        some (.tooOld demoPeer 4 demoPeerSt.last_sequence)) ∧
    ((demoRp.validate_sequence demoPeer 4).2 = none →
      ¬ 4 ∈ demoPeerSt.recent_sequences ∧
      4 ≤ demoPeerSt.last_sequence - SEQUENCE_TOLERANCE_WINDOW ∧
      demoPeerSt.last_sequence ≤ satAdd 4 SEQUENCE_TOLERANCE_WINDOW) :=
  C2_replay_rejection_amended demoPeer 4 [20] 4 demoPeerSt demoRp rfl
    (Or.inl rfl) (by decide)

/-! ## C8: source fingerprints ignore URI userinfo -/

theorem strFind_nil_pat : ∀ h : Str, strFind [] h = some 0
  | [] => rfl
  | b :: t => rfl

theorem isPrefixOf_append_of_le (pat l T : Str) (hle : pat.length ≤ l.length) :
    (pat.isPrefixOf (l ++ T) = true) ↔ (pat.isPrefixOf l = true) := by
  rw [List.isPrefixOf_iff_prefix, List.isPrefixOf_iff_prefix,
    List.prefix_iff_eq_take, List.prefix_iff_eq_take,
    List.take_append_eq_append_take, Nat.sub_eq_zero_of_le hle,
    List.take_zero, List.append_nil]

theorem strFind_append_of_found_at_end (pat : Str) :
    ∀ (P : Str) (k : Nat), strFind pat P = some k →
      k + pat.length ≤ P.length →
      ∀ T, strFind pat (P ++ T) = some k
  | [], k => fun h hle T => by
    by_cases hp : pat.isEmpty
    · have hpat : pat = [] := by
        cases pat
        · rfl
        · simp [List.isEmpty] at hp
      subst hpat
      simp only [strFind, List.isEmpty, if_pos] at h
      have hk : k = 0 := (Option.some.inj h).symm
      subst hk
      exact strFind_nil_pat T
    · simp [strFind, hp] at h
  | b :: P2, k => fun h hle T => by
    by_cases hpre : pat.isPrefixOf (b :: P2) = true
    · have hk : k = 0 := by
        simp only [strFind, hpre, if_pos] at h
        exact (Option.some.inj h).symm
      subst hk
      have hpre2 : pat.isPrefixOf ((b :: P2) ++ T) = true := by
        rw [List.isPrefixOf_iff_prefix] at hpre ⊢
        exact hpre.trans (List.prefix_append _ _)
      show strFind pat ((b :: P2) ++ T) = some 0
      rw [List.cons_append]
      simp [strFind, show pat.isPrefixOf (b :: (P2 ++ T)) = true from
        by rw [← List.cons_append]; exact hpre2]
    · obtain ⟨j, hj, rfl⟩ : ∃ j, strFind pat P2 = some j ∧ k = j + 1 := by
        simp only [strFind, hpre, if_false] at h
        rcases hsf : strFind pat P2 with _ | j
        · rw [hsf] at h
          simp at h
        · rw [hsf] at h
          simp at h
          exact ⟨j, rfl, h.symm⟩
      have hle2 : j + pat.length ≤ P2.length := by
        simp only [List.length_cons] at hle
        omega
      have ih := strFind_append_of_found_at_end pat P2 j hj hle2 T
      have hlen : pat.length ≤ (b :: P2).length := by
        simp only [List.length_cons]
        omega
      have hpre3 : ¬ pat.isPrefixOf ((b :: P2) ++ T) = true := by
        rw [isPrefixOf_append_of_le pat (b :: P2) T hlen]
        exact hpre
      show strFind pat ((b :: P2) ++ T) = some (j + 1)
      rw [List.cons_append]
      have hpre4 : ¬ pat.isPrefixOf (b :: (P2 ++ T)) = true := by
        rw [← List.cons_append]
        exact hpre3
      simp [strFind, hpre4, ih]

theorem findByte_append_userinfo (d : Nat) (hd : ¬ (0x40 : Nat) = d) :
    ∀ (ui : Str), (∀ b ∈ ui, ¬ b = d) → ∀ m : Str,
      findByte d (ui ++ 0x40 :: m) =
        (findByte d m).map (· + (ui.length + 1))
  | [] => fun _ m => by
    have h1 : findByte d (0x40 :: m) = (findByte d m).map (· + 1) := by
      simp [findByte, hd]
    rw [List.nil_append, h1]
    rcases findByte d m with _ | i
    · rfl
    · simp
  | b :: ui2 => fun hui m => by
    have hb : ¬ b = d := hui b (by simp)
    have ih := findByte_append_userinfo d hd ui2
      (fun x hx => hui x (by simp [hx])) m
    have h1 : findByte d ((b :: ui2) ++ 0x40 :: m) =
        (findByte d (ui2 ++ 0x40 :: m)).map (· + 1) := by
      rw [List.cons_append]
      simp [findByte, hb]
    rw [h1, ih]
    rcases findByte d m with _ | i
    · rfl
    · show some (i + (ui2.length + 1) + 1) =
        some (i + ((b :: ui2).length + 1))
      rfl

theorem authorityCut_le : ∀ l : Str, authorityCut l ≤ l.length := by
  intro l
  simp only [authorityCut, List.foldl_cons, List.foldl_nil]
  rcases findByte 0x2F l with _ | i1 <;>
    rcases findByte 0x3F l with _ | i2 <;>
      rcases findByte 0x23 l with _ | i3 <;>
        (try simp) <;> (try simp only [Nat.min_def]) <;>
          (try split_ifs) <;> omega

theorem authorityCut_append_userinfo (ui m : Str)
    (hui : ∀ b ∈ ui, ¬ b = 0x2F ∧ ¬ b = 0x3F ∧ ¬ b = 0x23) :
    authorityCut (ui ++ 0x40 :: m) = ui.length + 1 + authorityCut m := by
  have h47 := findByte_append_userinfo 0x2F (by decide) ui
    (fun b hb => (hui b hb).1) m
  have h63 := findByte_append_userinfo 0x3F (by decide) ui
    (fun b hb => (hui b hb).2.1) m
  have h35 := findByte_append_userinfo 0x23 (by decide) ui
    (fun b hb => (hui b hb).2.2) m
  simp only [authorityCut, List.foldl_cons, List.foldl_nil, h47, h63, h35,
    List.length_append, List.length_cons]
  rcases findByte 0x2F m with _ | i1 <;>
    rcases findByte 0x3F m with _ | i2 <;>
      rcases findByte 0x23 m with _ | i3 <;>
        (try simp) <;> (try simp only [Nat.min_def]) <;>
          (try split_ifs) <;> omega

/-- Offset just past the final `@` of an authority remainder (0 when there is
no `@`). -/
def lastAtSplit (m : Str) : Nat :=
  match lastIdxOf 0x40 m with
  | some p => p + 1
  | none => 0

theorem lastIdxOf_append_at : ∀ ui m : Str,
    lastIdxOf 0x40 (ui ++ 0x40 :: m) = some (ui.length + lastAtSplit m)
  | [], m => by
    simp only [List.nil_append, lastIdxOf, lastAtSplit, List.length_nil]
    rcases lastIdxOf 0x40 m with _ | p <;> simp
  | b :: ui2, m => by
    have ih := lastIdxOf_append_at ui2 m
    have h1 : lastIdxOf 0x40 ((b :: ui2) ++ 0x40 :: m) =
        match lastIdxOf 0x40 (ui2 ++ 0x40 :: m) with
        | some j => some (j + 1)
        | none => if b == 0x40 then some 0 else none := rfl
    rw [h1, ih]
    show some (ui2.length + lastAtSplit m + 1) =
      some ((b :: ui2).length + lastAtSplit m)
    congr 1
    simp only [List.length_cons]
    omega

theorem redactUriUserinfo_of_find (u : Str) (k : Nat)
    (h : strFind (strBytes "://") u = some k) :
    redactUriUserinfo u =
      match lastIdxOf 0x40
          ((u.drop (k + 3)).take (authorityCut (u.drop (k + 3)))) with
      | none => u
      | some j =>
          u.take (k + 3) ++ strBytes "<redacted>@" ++
            ((u.drop (k + 3)).take (authorityCut (u.drop (k + 3)))).drop
              (j + 1) ++
            (u.drop (k + 3)).drop (authorityCut (u.drop (k + 3))) := by
  unfold redactUriUserinfo
  rw [h]

/-- Closed form of `redact_uri_userinfo` on a URI decomposed as
`scheme ++ "://" ++ userinfo ++ "@" ++ rest`: the result does not depend on
the userinfo component. -/
theorem redact_decomp (scheme ui rest : Str)
    (hs : strFind (strBytes "://")
        ((scheme ++ strBytes "://") ++ (ui ++ 0x40 :: rest)) =
      some scheme.length)
    (hui : ∀ b ∈ ui, ¬ b = 0x2F ∧ ¬ b = 0x3F ∧ ¬ b = 0x23) :
    redactUriUserinfo ((scheme ++ strBytes "://") ++ (ui ++ 0x40 :: rest)) =
      (scheme ++ strBytes "://") ++ strBytes "<redacted>@" ++
        (rest.take (authorityCut rest)).drop
          (lastAtSplit (rest.take (authorityCut rest))) ++
        rest.drop (authorityCut rest) := by
  have hlen : (scheme ++ strBytes "://").length = scheme.length + 3 := by
    simp [strBytes]
  have hdrop : ((scheme ++ strBytes "://") ++ (ui ++ 0x40 :: rest)).drop
      (scheme.length + 3) = ui ++ 0x40 :: rest := List.drop_left' hlen
  have htake : ((scheme ++ strBytes "://") ++ (ui ++ 0x40 :: rest)).take
      (scheme.length + 3) = scheme ++ strBytes "://" := List.take_left' hlen
  rw [redactUriUserinfo_of_find _ scheme.length hs, hdrop, htake,
    authorityCut_append_userinfo ui rest hui]
  have htk : (ui ++ 0x40 :: rest).take (ui.length + 1 + authorityCut rest)
      = ui ++ 0x40 :: rest.take (authorityCut rest) := by
    have h1 : ui.length + 1 + authorityCut rest
        = ui.length + (authorityCut rest + 1) := by omega
    rw [h1, List.take_append, List.take_succ_cons]
  rw [htk, lastIdxOf_append_at ui (rest.take (authorityCut rest))]
  have hd1 : (ui ++ 0x40 :: rest.take (authorityCut rest)).drop
      (ui.length + lastAtSplit (rest.take (authorityCut rest)) + 1)
      = (rest.take (authorityCut rest)).drop
          (lastAtSplit (rest.take (authorityCut rest))) := by
    have h1 : ui.length + lastAtSplit (rest.take (authorityCut rest)) + 1
        = ui.length + (lastAtSplit (rest.take (authorityCut rest)) + 1) := by
      omega
    rw [h1, List.drop_append, List.drop_succ_cons]
  have hd2 : (ui ++ 0x40 :: rest).drop (ui.length + 1 + authorityCut rest)
      = rest.drop (authorityCut rest) := by
    have h1 : ui.length + 1 + authorityCut rest
        = ui.length + (authorityCut rest + 1) := by omega
    rw [h1, List.drop_append, List.drop_succ_cons]
  show (scheme ++ strBytes "://") ++ strBytes "<redacted>@" ++
      (ui ++ 0x40 :: rest.take (authorityCut rest)).drop
        (ui.length + lastAtSplit (rest.take (authorityCut rest)) + 1) ++
      (ui ++ 0x40 :: rest).drop (ui.length + 1 + authorityCut rest) = _
  rw [hd1, hd2]

/-- C8: `source_fingerprint_v0` is independent of the userinfo component of
the URI.  For any hash model and any two source descriptors whose trimmed
URIs decompose as `scheme ++ "://" ++ userinfo ++ "@" ++ rest` with the same
scheme and rest (the userinfo free of the authority delimiters `/`, `?`,
`#`) and whose other fields agree, the fingerprints are equal. -/
theorem C8_source_fingerprint_ignores_userinfo
    (H : HashModel) (s1 s2 : SourceDescriptorV0)
    (scheme ui1 ui2 rest : Str)
    (h1 : normalizeTrim s1.uri = (scheme ++ strBytes "://") ++
      (ui1 ++ 0x40 :: rest))
    (h2 : normalizeTrim s2.uri = (scheme ++ strBytes "://") ++
      (ui2 ++ 0x40 :: rest))
    (hs1 : strFind (strBytes "://")
        ((scheme ++ strBytes "://") ++ (ui1 ++ 0x40 :: rest)) =
      some scheme.length)
    (hs2 : strFind (strBytes "://")
        ((scheme ++ strBytes "://") ++ (ui2 ++ 0x40 :: rest)) =
      some scheme.length)
    (hui1 : ∀ b ∈ ui1, ¬ b = 0x2F ∧ ¬ b = 0x3F ∧ ¬ b = 0x23)
    (hui2 : ∀ b ∈ ui2, ¬ b = 0x2F ∧ ¬ b = 0x3F ∧ ¬ b = 0x23)
    (hct : s1.content_type = s2.content_type)
    (ham : s1.auth_mode = s2.auth_mode)
    (het : s1.etag_or_version = s2.etag_or_version) :
    sourceFingerprintV0 H s1 = sourceFingerprintV0 H s2 := by
  unfold sourceFingerprintV0 sourceFingerprintCanon
    normalizeAndRedactSourceDescriptor
  simp only [h1, h2, hct, ham, het,
    redact_decomp scheme ui1 rest hs1 hui1,
    redact_decomp scheme ui2 rest hs2 hui2]

/-- A hash model whose source digest exposes the full canonical URI, so the
witness below is not vacuous: equal digests really mean the redacted
canonical forms coincide. -/
def demoUriHashModel : HashModel :=
  { demoHashModel with sourcePostcard := fun c => c.uri }

theorem C8_source_fingerprint_ignores_userinfo_witness :
    sourceFingerprintV0 demoUriHashModel
        ⟨strBytes "s3://alice:secret@bucket/x", strBytes "text/csv",
          .basic, none⟩ =
      sourceFingerprintV0 demoUriHashModel
        ⟨strBytes "s3://bob:pw@bucket/x", strBytes "text/csv",
          .basic, none⟩ :=
  C8_source_fingerprint_ignores_userinfo demoUriHashModel
    ⟨strBytes "s3://alice:secret@bucket/x", strBytes "text/csv",
      .basic, none⟩
    ⟨strBytes "s3://bob:pw@bucket/x", strBytes "text/csv", .basic, none⟩
    (strBytes "s3") (strBytes "alice:secret") (strBytes "bob:pw")
    (strBytes "bucket/x")
    (by decide) (by decide) (by decide) (by decide) (by decide) (by decide)
    rfl rfl rfl

end SwarmTorch
